import Mathlib

/-!
Schedule graphic: canvas build system.

A shallow embedding of `public/canvas-build-system.js` (classes
`CanvasDrawingUtils`, `ImageLoader`, `CanvasBuildSystem`) and of the
reconnecting of `public/realtime-sync.js` (class `RealtimeSync`).

Conventions of the embedding.

* A JavaScript string is the list of its characters (`JSString`), a
  well-formed sequence of Unicode scalar values.  The operations the source
  uses (`length`, `slice`, `substring`, `charAt`, `split`, `startsWith`,
  `includes`) count UTF-16 code units; for strings of the Basic Multilingual
  Plane these are exactly the characters of the list.
* `null`, `undefined` and a missing field are `none`.  A string is truthy
  when it is present and not empty.  A match is a record whose fields are
  strings or absent, a match list is an array of such records or not an array.
* A JavaScript number that the sort comparator produces is an `Option Int`,
  `none` standing for `NaN`: time values of dates are integers, and so are
  the minutes of a time `"HH:MM"`.  Numbers that are not integers and the
  infinities are not modelled.
* Functions of the JavaScript engine that the source calls are parameters of
  the embedding: `Date` parsing (`dateParse`), `Number` (`toNumber`),
  `String.prototype.toUpperCase` (`toUpperCase`), `encodeURIComponent`,
  `ctx.measureText` (`measure`) and `Array.prototype.sort` (`sort`).  What
  ECMA-262 promises about `sort` is the predicate `ArraySortContract`; for a
  comparator that is not consistent the order is implementation-defined, and
  concrete inputs are run with `insertionSort`, one sort that meets the
  contract.
* Coordinates are rational numbers and their arithmetic is exact; the
  rounding of floating-point division is not modelled.  `Math.round` is
  modelled exactly.
* An object used as a dictionary is a finite map from strings to values;
  members inherited from `Object.prototype` are not modelled.
* The outcome of loading an image is a parameter (`loadOutcome`): `onload`
  with the size of the image, or `onerror`.
-/

namespace CanvasBuild

/-! ## Strings and truthiness -/

/-- A JavaScript string, as the list of its characters. -/
abbrev JSString := List Char

/-- Truthiness of a value that is a string, `null` or `undefined`:
`if (v)` succeeds exactly for a present, non-empty string. -/
def truthy : Option JSString → Bool
  | some (_ :: _) => true
  | _ => false

/-- The string held by a truthy value (the empty string otherwise). -/
def strOf : Option JSString → JSString
  | some s => s
  | none => []

/-- `String.prototype.split` with a separator of one character: the pieces
between the occurrences of `sep`, empty pieces included.  The result is never
empty: a string without `sep` gives the one-element list of itself. -/
def splitOn (sep : Char) : JSString → List JSString
  | [] => [[]]
  | c :: cs =>
    if c = sep then [] :: splitOn sep cs
    else match splitOn sep cs with
      | [] => [[c]]
      | w :: ws => (c :: w) :: ws

/-- `String.prototype.includes`: `t` occurs in `s` as a contiguous run. -/
def includes (s t : JSString) : Bool :=
  s.tails.any (fun r => t.isPrefixOf r)

/-! ## Data model -/

/-- A team of a match: `{ name, logo }`. -/
structure Team where
  name : Option JSString
  logo : Option JSString
deriving DecidableEq

/-- A match record: `{ time, date, tournament, team1, team2 }`. -/
structure Match where
  time : Option JSString
  date : Option JSString
  tournament : Option JSString
  team1 : Option Team
  team2 : Option Team
deriving DecidableEq

/-! ## `Array.prototype.sort` -/

section ArraySort

open List

variable {α : Type}

/-- `SortCompare` of ECMA-262 for a user comparator: the number the
comparator returns, `NaN` being replaced by `+0`. -/
def sortCompare (comparefn : α → α → Option Int) (x y : α) : Int :=
  match comparefn x y with
  | some v => v
  | none => 0

/-- A consistent comparator for the values of `S` (ECMA-262, the definition
that accompanies `Array.prototype.sort`): `=` is reflexive, symmetric and
transitive, `<` is transitive and `>` is transitive. -/
structure ConsistentComparator (comparefn : α → α → Option Int) (S : List α) : Prop where
  refl : ∀ a ∈ S, sortCompare comparefn a a = 0
  symm : ∀ a ∈ S, ∀ b ∈ S, sortCompare comparefn a b = 0 → sortCompare comparefn b a = 0
  trans_eq : ∀ a ∈ S, ∀ b ∈ S, ∀ c ∈ S, sortCompare comparefn a b = 0 →
    sortCompare comparefn b c = 0 → sortCompare comparefn a c = 0
  trans_lt : ∀ a ∈ S, ∀ b ∈ S, ∀ c ∈ S, sortCompare comparefn a b < 0 →
    sortCompare comparefn b c < 0 → sortCompare comparefn a c < 0
  trans_gt : ∀ a ∈ S, ∀ b ∈ S, ∀ c ∈ S, 0 < sortCompare comparefn a b →
    0 < sortCompare comparefn b c → 0 < sortCompare comparefn a c

/-- What ECMA-262 requires of `Array.prototype.sort` called with a comparator:
the result is a rearrangement of the array; when the comparator is consistent
for the elements of the array, no element stands before one that compares
smaller, and elements that compare equal keep their order (the sort is
stable).  For a comparator that is not consistent the order is left to the
implementation. -/
structure ArraySortContract (sort : (α → α → Option Int) → List α → List α) : Prop where
  perm : ∀ comparefn xs, (sort comparefn xs).Perm xs
  sorted : ∀ comparefn xs, ConsistentComparator comparefn xs →
    (sort comparefn xs).Pairwise (fun x y => ¬ sortCompare comparefn y x < 0)
  stable : ∀ comparefn xs, ConsistentComparator comparefn xs →
    ∀ a b, [a, b] <+ xs → sortCompare comparefn a b = 0 → [a, b] <+ sort comparefn xs

/-- One step of an insertion sort: `x`, the next element of the array, is
put into the sorted part in front of the first element it compares smaller
than, and at the end when there is none. -/
def insertSorted (comparefn : α → α → Option Int) (x : α) : List α → List α
  | [] => [x]
  | y :: ys =>
    if sortCompare comparefn x y < 0 then x :: y :: ys
    else y :: insertSorted comparefn x ys

/-- An insertion sort that takes the elements of the array from left to
right: one implementation that meets `ArraySortContract`. -/
def insertionSort (comparefn : α → α → Option Int) (xs : List α) : List α :=
  xs.foldl (fun acc x => insertSorted comparefn x acc) []

end ArraySort

/-! ## `CanvasBuildSystem.drawGraphic` -/

/-- The difference `x - y` of two JavaScript numbers; `NaN` when one is. -/
def numSub : Option Int → Option Int → Option Int
  | some x, some y => some (x - y)
  | _, _ => none

/-- The value of `timeX[0] * 60 + (timeX[1] || 0)` for
`timeX = time.split(':').map(Number)`: `NaN` when the first piece is not a
number; a second piece that is missing, `NaN` or `0` counts as `0`. -/
def minutesOf (toNumber : JSString → Option Int) (time : JSString) : Option Int :=
  match (splitOn ':' time).map toNumber with
  | [] => none
  | h :: rest =>
    let m : Int :=
      match rest with
      | some v :: _ => v
      | _ => 0
    match h with
    | some hv => some (hv * 60 + m)
    | none => none

/-- The comparator that `drawGraphic` hands to `sort`. -/
def compareMatches (dateParse toNumber : JSString → Option Int) (a b : Match) : Option Int :=
  if truthy a.date && truthy b.date then
    numSub (dateParse (strOf a.date)) (dateParse (strOf b.date))
  else if truthy a.time && truthy b.time then
    numSub (minutesOf toNumber (strOf a.time)) (minutesOf toNumber (strOf b.time))
  else
    some 0

/-- The array `sortedMatches` of `drawGraphic`: a match list that is not an
array (or is absent) is replaced by the empty array, and a copy is sorted. -/
def sortedMatches (sort : (Match → Match → Option Int) → List Match → List Match)
    (dateParse toNumber : JSString → Option Int) (matchList : Option (List Match)) : List Match :=
  sort (compareMatches dateParse toNumber) (matchList.getD [])

/-- The value of `sortedMatches.length * rowHeight || 100`. -/
def matchesHeight (n : Nat) : Nat :=
  if n * 92 = 0 then 100 else n * 92

/-- What `drawGraphic` fixes before it paints: the size of the canvas and,
for each row in painting order, the match and the `y` of the row's centre. -/
structure Graphic where
  canvasWidth : Nat
  canvasHeight : Nat
  rows : List (Match × Nat)
deriving DecidableEq

/-- The layout part of `CanvasBuildSystem.drawGraphic`. -/
def drawGraphic (sort : (Match → Match → Option Int) → List Match → List Match)
    (dateParse toNumber : JSString → Option Int) (matchList : Option (List Match)) : Graphic :=
  let sorted := sortedMatches sort dateParse toNumber matchList
  let canvasWidth := 1200
  let titleHeight := 90
  let rowHeight := 92
  let extraPadding := 30
  let canvasHeight := titleHeight + matchesHeight sorted.length + extraPadding + 15
  { canvasWidth := canvasWidth
    canvasHeight := canvasHeight
    rows := sorted.enum.map (fun (p : Nat × Match) =>
      (p.2, titleHeight + 15 + p.1 * rowHeight + rowHeight / 2)) }

/-- The matches in the order in which `drawGraphic` paints their rows. -/
def paintedMatches (sort : (Match → Match → Option Int) → List Match → List Match)
    (dateParse toNumber : JSString → Option Int) (matchList : Option (List Match)) : List Match :=
  (drawGraphic sort dateParse toNumber matchList).rows.map Prod.fst

/-! ## `CanvasDrawingUtils.truncateText` -/

/-- The suffix `'...'`. -/
def ellipsis : JSString := ['.', '.', '.']

/-- The `while` loop of `truncateText`: as long as `truncatedText + '...'` is
wider than `maxWidth` and `truncatedText` is not empty, the last character is
removed (`slice(0, -1)`).  `fuel` bounds the number of rounds; a round
shortens the text, so the length of the text is enough fuel
(`truncateLoop_exit`). -/
def truncateLoop {W : Type} [LinearOrder W] (measure : JSString → W) (maxWidth : W) :
    Nat → JSString → JSString
  | 0, truncatedText => truncatedText
  | fuel + 1, truncatedText =>
    if maxWidth < measure (truncatedText ++ ellipsis) ∧ 0 < truncatedText.length then
      truncateLoop measure maxWidth fuel truncatedText.dropLast
    else truncatedText

/-- `ImageLoader.getProxyUrl(url)`. -/
def getProxyUrl (encodeURIComponent : JSString → JSString) (url : Option JSString) :
    Option JSString :=
  if truthy url = false ∨ strOf url = [] ∨ "data:".toList.isPrefixOf (strOf url) = true then url
  else if includes (strOf url) "cdn.pandascore.co".toList = true then
    some ("https://corsproxy.io/?".toList ++ encodeURIComponent (strOf url))
  else url

/-! ## `CanvasBuildSystem.getTeamInitials` -/

/-- `getTeamInitials(teamName)`. -/
def getTeamInitials (toUpperCase : JSString → JSString) (teamName : Option JSString) : JSString :=
  if truthy teamName = false then "TM".toList
  else
    let words := splitOn ' ' (strOf teamName)
    if words.length = 1 then toUpperCase ((strOf teamName).take 2)
    else toUpperCase ((words.getD 0 []).take 1 ++ (words.getD 1 []).take 1)

/-! ## Notions the statements use -/

/-- The value of a decimal digit. -/
def digitVal (c : Char) : Int := ((c.toNat - 48 : Nat) : Int)

/-- A time of the form `"HH:MM"`: two decimal digits, a colon, two decimal digits. -/
def isHHMM : JSString → Bool
  | [h1, h2, c, m1, m2] => h1.isDigit && h2.isDigit && c == ':' && m1.isDigit && m2.isDigit
  | _ => false

/-- Minutes since midnight of a time `"HH:MM"`, `60 * HH + MM`, read off the
digits (and `0` for a string of another form). -/
def clockMinutes : JSString → Int
  | [h1, h2, _, m1, m2] => 60 * (10 * digitVal h1 + digitVal h2) + (10 * digitVal m1 + digitVal m2)
  | _ => 0

/-- `Number` reads a string of two decimal digits as the number they write:
the one fact about `Number` that sorting `"HH:MM"` times relies on. -/
def ReadsTwoDigits (toNumber : JSString → Option Int) : Prop :=
  ∀ d1 d2 : Char, d1.isDigit = true → d2.isDigit = true →
    toNumber [d1, d2] = some (10 * digitVal d1 + digitVal d2)

/-- The time value of the date of a match (`0` when the date does not parse). -/
def dateValue (dateParse : JSString → Option Int) (m : Match) : Int :=
  match dateParse (strOf m.date) with
  | some v => v
  | none => 0

/-- `Number` on strings of decimal digits (and `NaN` elsewhere): it agrees
with `Number` on every string that the examples below pass to it. -/
def decimalNumber (s : JSString) : Option Int :=
  if s.all Char.isDigit && !s.isEmpty then
    some (s.foldl (fun acc c => 10 * acc + digitVal c) 0)
  else none

/-- `Date` parsing on the two date strings of the examples below, as
milliseconds since the epoch (and `NaN` elsewhere). -/
def sampleDateParse (s : JSString) : Option Int :=
  if s = "2024-05-01T18:00:00Z".toList then some 1714586400000
  else if s = "2024-05-02T18:00:00Z".toList then some 1714672800000
  else none

/-- A match with the given time and date and nothing else. -/
def sampleMatch (time date : Option String) : Match :=
  { time := time.map String.toList, date := date.map String.toList,
    tournament := none, team1 := none, team2 := none }

/-- `toUpperCase` on strings of ASCII characters. -/
def asciiUpper (s : JSString) : JSString := s.map Char.toUpper

/-- The digit of `n < 16` in upper-case hexadecimal. -/
def hexDigit (n : Nat) : Char :=
  if n < 10 then Char.ofNat (48 + n) else Char.ofNat (55 + n)

/-- The UTF-8 octets of a code point. -/
def utf8Octets (n : Nat) : List Nat :=
  if n < 128 then [n]
  else if n < 2048 then [192 + n / 64, 128 + n % 64]
  else if n < 65536 then [224 + n / 4096, 128 + n / 64 % 64, 128 + n % 64]
  else [240 + n / 262144, 128 + n / 4096 % 64, 128 + n / 64 % 64, 128 + n % 64]

/-- The characters that `encodeURIComponent` leaves as they are: letters,
digits and `- _ . ! ~ * ' ( )`. -/
def uriUnescaped (c : Char) : Bool :=
  c.isAlphanum || "-_.!~*'()".toList.contains c

/-- `encodeURIComponent` on a string of Unicode scalar values: every other
character becomes `%XX` for each octet of its UTF-8 encoding. -/
def percentEncode (s : JSString) : JSString :=
  s.flatMap (fun c =>
    if uriUnescaped c then [c]
    else (utf8Octets c.toNat).flatMap (fun b => ['%', hexDigit (b / 16), hexDigit (b % 16)]))

/-- The host of an absolute URL `scheme://host...`: what stands between the
`://` and the next `/`, `?` or `#` (the empty string for another form). -/
def urlHost (u : JSString) : JSString :=
  match u.dropWhile (fun c => c != ':') with
  | ':' :: '/' :: '/' :: rest => rest.takeWhile (fun c => c != '/' && c != '?' && c != '#')
  | _ => []

/-! ## Row geometry: `drawMatchRow`, `drawTeam`

Coordinates are rational numbers: the source divides the logo size 49 by two. -/

/-- What `drawTeam(team, x, y, isTeam1)` fixes: the square slot handed to
`drawTeamLogo` (its left edge, its top edge and its size) and the anchor and
alignment of the team name. -/
structure TeamLayout where
  logoX : ℚ
  logoY : ℚ
  logoSize : ℚ
  textX : ℚ
  textY : ℚ
  textAlignRight : Bool
deriving DecidableEq

/-- The layout part of `drawTeam(team, x, y, isTeam1)`; nothing is drawn for
an absent team. -/
def drawTeam (team : Option Team) (x y : ℚ) (isTeam1 : Bool) : Option TeamLayout :=
  match team with
  | none => none
  | some _ =>
    let logoSize : ℚ := 49
    let exactGap : ℚ := 16
    if isTeam1 then
      some { logoX := x - logoSize / 2, logoY := y - logoSize / 2, logoSize := logoSize,
             textX := x - logoSize - exactGap, textY := y, textAlignRight := true }
    else
      some { logoX := x - logoSize / 2, logoY := y - logoSize / 2, logoSize := logoSize,
             textX := x + logoSize / 2 + exactGap, textY := y, textAlignRight := false }

/-- What `drawMatchRow(match, y)` fixes on a canvas of the given width: the
background rectangle of the row, the `x` of the time label, the `x` of the
`vs` marker, the two teams and the `x` of the tournament label. -/
structure RowLayout where
  rowX : ℚ
  rowY : ℚ
  rowWidth : ℚ
  rowHeight : ℚ
  timeX : ℚ
  centerX : ℚ
  team1 : Option TeamLayout
  team2 : Option TeamLayout
  tournamentX : Option ℚ
deriving DecidableEq

/-- The layout part of `drawMatchRow(match, y)`, `width` being `this.canvas.width`. -/
def drawMatchRow (width : ℚ) (m : Match) (y : ℚ) : RowLayout :=
  let rowHeight : ℚ := 72
  let rowWidth : ℚ := width - 48
  let rowX : ℚ := 24
  let rowY : ℚ := y - rowHeight / 2
  let timeX : ℚ := rowX + 38
  let matchContentX : ℚ := timeX + 180
  let matchContentWidth : ℚ := rowWidth - 180 - 200
  let centerX : ℚ := matchContentX + matchContentWidth / 2
  let vsGap : ℚ := 80
  let logoSize : ℚ := 49
  let team1X : ℚ := centerX - vsGap - logoSize / 2
  let team2X : ℚ := centerX + vsGap + logoSize / 2
  { rowX := rowX, rowY := rowY, rowWidth := rowWidth, rowHeight := rowHeight,
    timeX := timeX, centerX := centerX,
    team1 := drawTeam m.team1 team1X y true,
    team2 := drawTeam m.team2 team2X y false,
    tournamentX := if truthy m.tournament then some (width - 48) else none }

/-- The rows of a graphic as `drawGraphic` has `drawMatchRow` lay them out. -/
def rowLayouts (g : Graphic) : List RowLayout :=
  g.rows.map (fun (p : Match × Nat) => drawMatchRow (g.canvasWidth : ℚ) p.1 (p.2 : ℚ))

/-! ## Logo scaling in `drawTeamLogo` -/

/-- `Math.round`: the nearest integer, a half being rounded up. -/
def mathRound (v : ℚ) : Int := Int.floor (v + 1 / 2)

/-- The size at which a logo of `origWidth` by `origHeight` pixels is drawn
into a slot of the given size: `(drawWidth, drawHeight)`. -/
def logoDrawSize (size : ℚ) (origWidth origHeight : Nat) : ℚ × ℚ :=
  if origWidth > origHeight then
    (size, ((origHeight : ℚ) / (origWidth : ℚ)) * size)
  else
    (((origWidth : ℚ) / (origHeight : ℚ)) * size, size)

/-- The offsets `(offsetX, offsetY)` that centre the logo in the slot. -/
def logoOffset (size : ℚ) (origWidth origHeight : Nat) : ℚ × ℚ :=
  ((size - (logoDrawSize size origWidth origHeight).1) / 2,
   (size - (logoDrawSize size origWidth origHeight).2) / 2)

/-- A rectangle with integer coordinates, as `drawImage` receives it for a logo. -/
structure PixelRect where
  x : Int
  y : Int
  width : Int
  height : Int
deriving DecidableEq

/-- The four numbers after the image in the call
`ctx.drawImage(logo, Math.round(x + offsetX), Math.round(y + offsetY),
Math.round(drawWidth), Math.round(drawHeight))`. -/
def logoDrawRect (x y size : ℚ) (origWidth origHeight : Nat) : PixelRect :=
  { x := mathRound (x + (logoOffset size origWidth origHeight).1)
    y := mathRound (y + (logoOffset size origWidth origHeight).2)
    width := mathRound (logoDrawSize size origWidth origHeight).1
    height := mathRound (logoDrawSize size origWidth origHeight).2 }

/-! ## Images, placeholders and the two caches

An object that the source uses as a dictionary (`imageCache`,
`placeholderCache`) is a finite map from strings to values; members that a
JavaScript object inherits from `Object.prototype` (keys such as
`constructor` or `__proto__`) are not modelled. -/

/-- A loaded `Image`: the `src` it was fetched from and its size in pixels. -/
structure Image where
  src : JSString
  width : Nat
  height : Nat
deriving DecidableEq

/-- The canvas that `ImageLoader.createPlaceholder(text)` returns: a 49 x 49
disc with the text in its centre. -/
structure Placeholder where
  text : JSString
deriving DecidableEq

/-- `ImageLoader.createPlaceholder(text)`. -/
def createPlaceholder (text : JSString) : Placeholder := { text := text }

/-- An object used as a dictionary. -/
abbrev Dict (β : Type) := List (JSString × β)

/-- The property read `dict[key]`: `none` is `undefined`. -/
def Dict.get {β : Type} : Dict β → JSString → Option β
  | [], _ => none
  | (k, v) :: d, key => if key = k then some v else Dict.get d key

/-- The assignment `dict[key] = value`. -/
def Dict.set {β : Type} : Dict β → JSString → β → Dict β
  | [], key, value => [(key, value)]
  | (k, v) :: d, key, value =>
    if key = k then (k, value) :: d else (k, v) :: Dict.set d key value

/-- The keys of a dictionary. -/
def Dict.keys {β : Type} (d : Dict β) : List JSString := d.map Prod.fst

/-- The array `[...new Set(urls.filter(url => url))]`: the truthy entries, each
once, in the order of their first occurrence. -/
def uniqueUrls (urls : List (Option JSString)) : List JSString :=
  ((urls.filter truthy).map strOf).foldl (fun acc u => if u ∈ acc then acc else acc ++ [u]) []

/-- `ImageLoader.loadImages(urls)`.  `loadOutcome url src` is the outcome of
the load that is started for `url` with `img.src = src`: `some (width, height)`
when `onload` fires, `none` when `onerror` fires.  Every load ends in one of
the two; a load that never ends is not modelled. -/
def ImageLoader.loadImages (encodeURIComponent : JSString → JSString)
    (loadOutcome : JSString → JSString → Option (Nat × Nat))
    (urls : Option (List (Option JSString))) : Dict Image :=
  match urls with
  | none => []
  | some us =>
    if us.length = 0 then []
    else
      (uniqueUrls us).foldl (fun (imageCache : Dict Image) url =>
        let proxyUrl := strOf (getProxyUrl encodeURIComponent (some url))
        match loadOutcome url proxyUrl with
        | some (w, h) => imageCache.set url { src := proxyUrl, width := w, height := h }
        | none => imageCache) []

/-- The state of a `CanvasBuildSystem` that drawing logos reads and writes. -/
structure CanvasBuildSystem where
  imageCache : Dict Image
  placeholderCache : Dict Placeholder
deriving DecidableEq

/-- The state that the constructor sets up: both caches empty. -/
def CanvasBuildSystem.empty : CanvasBuildSystem := { imageCache := [], placeholderCache := [] }

/-- The logo `team.logo` when there is a team with a truthy logo. -/
def teamLogos (team : Option Team) : List (Option JSString) :=
  match team with
  | some t => if truthy t.logo then [t.logo] else []
  | none => []

/-- The step `if (team && team.name) placeholderCache[team.name] =
createPlaceholder(getTeamInitials(team.name))` of `loadImages(matches)`. -/
def addPlaceholder (toUpperCase : JSString → JSString) (placeholderCache : Dict Placeholder)
    (team : Option Team) : Dict Placeholder :=
  match team with
  | some t =>
    if truthy t.name then
      placeholderCache.set (strOf t.name) (createPlaceholder (getTeamInitials toUpperCase t.name))
    else placeholderCache
  | none => placeholderCache

/-- `CanvasBuildSystem.loadImages(matches)`. -/
def CanvasBuildSystem.loadImages (toUpperCase encodeURIComponent : JSString → JSString)
    (loadOutcome : JSString → JSString → Option (Nat × Nat))
    (s : CanvasBuildSystem) (matchList : Option (List Match)) : CanvasBuildSystem :=
  match matchList with
  | none => s
  | some ms =>
    if ms.length = 0 then s
    else
      let logoUrls := ms.flatMap (fun m => teamLogos m.team1 ++ teamLogos m.team2)
      { imageCache := ImageLoader.loadImages encodeURIComponent loadOutcome (some logoUrls)
        placeholderCache := ms.foldl (fun pc m =>
          addPlaceholder toUpperCase (addPlaceholder toUpperCase pc m.team1) m.team2)
          s.placeholderCache }

/-- What `drawTeamLogo` hands to `ctx.drawImage`: a logo with its rounded
rectangle, or a placeholder with the slot. -/
inductive Drawn where
  | logo (img : Image) (rect : PixelRect)
  | placeholder (p : Placeholder) (x y size : ℚ)

/-- The logo that was drawn, if one was. -/
def Drawn.logo? : Drawn → Option Image
  | Drawn.logo img _ => some img
  | Drawn.placeholder _ _ _ _ => none

/-- The text of the placeholder that was drawn, if one was. -/
def Drawn.placeholderText? : Drawn → Option JSString
  | Drawn.logo _ _ => none
  | Drawn.placeholder p _ _ _ => some p.text

/-- The second half of `drawTeamLogo`: the placeholder of the team name, made
and stored when the cache has none, or the placeholder kept under `'default'`
for a team without a name. -/
def drawPlaceholder (toUpperCase : JSString → JSString) (s : CanvasBuildSystem)
    (x y size : ℚ) (teamName : Option JSString) : Drawn × CanvasBuildSystem :=
  if truthy teamName then
    match s.placeholderCache.get (strOf teamName) with
    | some placeholder => (Drawn.placeholder placeholder x y size, s)
    | none =>
      let initials := getTeamInitials toUpperCase teamName
      let s' := { s with placeholderCache :=
        s.placeholderCache.set (strOf teamName) (createPlaceholder initials) }
      (Drawn.placeholder (createPlaceholder initials) x y size, s')
  else
    match s.placeholderCache.get "default".toList with
    | some placeholder => (Drawn.placeholder placeholder x y size, s)
    | none =>
      let s' := { s with placeholderCache :=
        s.placeholderCache.set "default".toList (createPlaceholder "TM".toList) }
      (Drawn.placeholder (createPlaceholder "TM".toList) x y size, s')

/-- `drawTeamLogo(logoUrl, x, y, size, teamName)`: what is drawn and the state
afterwards.  (In the model no step throws, so the `catch` branch is not
reached.) -/
def CanvasBuildSystem.drawTeamLogo (toUpperCase : JSString → JSString) (s : CanvasBuildSystem)
    (logoUrl : Option JSString) (x y size : ℚ) (teamName : Option JSString) :
    Drawn × CanvasBuildSystem :=
  match (if truthy logoUrl then s.imageCache.get (strOf logoUrl) else none) with
  | some logo =>
    if 0 < logo.width ∧ 0 < logo.height then
      (Drawn.logo logo (logoDrawRect x y size logo.width logo.height), s)
    else drawPlaceholder toUpperCase s x y size teamName
  | none => drawPlaceholder toUpperCase s x y size teamName

/-- The placeholder cache is in order: under every key other than `'default'`
it holds the placeholder with the initials of that key. -/
def PlaceholdersOK (toUpperCase : JSString → JSString) (placeholderCache : Dict Placeholder) :
    Prop :=
  ∀ (name : JSString) (p : Placeholder), name ≠ "default".toList →
    placeholderCache.get name = some p →
    p = createPlaceholder (getTeamInitials toUpperCase (some name))

/-- A team without a name next to a team called "default". -/
def defaultNameMatch : Match :=
  { time := some "18:00".toList, date := none, tournament := none,
    team1 := some { name := none, logo := none },
    team2 := some { name := some "default".toList, logo := none } }

/-! ## `RealtimeSync` (`public/realtime-sync.js`) -/

/-- The fields of a `RealtimeSync` instance that reconnecting reads and
writes, and `timers`, the delays of the timeouts set so far by
`setTimeout(() => this.connect(), this.reconnectDelay)`, oldest first. -/
structure RealtimeSync where
  reconnectAttempts : Nat
  maxReconnectAttempts : Nat
  reconnectDelay : Nat
  isConnected : Bool
  timers : List Nat
deriving DecidableEq

namespace RealtimeSync

/-- `attemptReconnect()`. -/
def attemptReconnect (s : RealtimeSync) : RealtimeSync :=
  if s.reconnectAttempts ≥ s.maxReconnectAttempts then s
  else
    { s with
      reconnectAttempts := s.reconnectAttempts + 1
      timers := s.timers ++ [s.reconnectDelay]
      reconnectDelay := min (s.reconnectDelay * 2) 30000 }

/-- `connect()`: the handlers are installed; when `new EventSource` throws,
`attemptReconnect()` is called. -/
def connect (throws : Bool) (s : RealtimeSync) : RealtimeSync :=
  if throws then attemptReconnect s else s

/-- The handler `onopen`. -/
def onopen (s : RealtimeSync) : RealtimeSync :=
  { s with isConnected := true, reconnectAttempts := 0, reconnectDelay := 1000 }

/-- The handler `onerror`. -/
def onerror (s : RealtimeSync) : RealtimeSync :=
  attemptReconnect { s with isConnected := false }

/-- `disconnect()`. -/
def disconnect (s : RealtimeSync) : RealtimeSync :=
  { s with isConnected := false }

/-- The state after the constructor, `throws` telling whether the first
`new EventSource` throws. -/
def create (throws : Bool) : RealtimeSync :=
  connect throws
    { reconnectAttempts := 0, maxReconnectAttempts := 5, reconnectDelay := 1000,
      isConnected := false, timers := [] }

/-- What can happen to an instance. -/
inductive Event where
  | connect (throws : Bool)
  | onopen
  | onerror
  | attemptReconnect
  | disconnect
deriving DecidableEq

/-- The state after an event. -/
def step (s : RealtimeSync) : Event → RealtimeSync
  | Event.connect throws => connect throws s
  | Event.onopen => onopen s
  | Event.onerror => onerror s
  | Event.attemptReconnect => attemptReconnect s
  | Event.disconnect => disconnect s

/-- The state after a sequence of events. -/
def run (s : RealtimeSync) (events : List Event) : RealtimeSync :=
  events.foldl step s

/-- The states that an instance can reach. -/
inductive Reachable : RealtimeSync → Prop where
  | create (throws : Bool) : Reachable (create throws)
  | step {s : RealtimeSync} (e : Event) : Reachable s → Reachable (step s e)

end RealtimeSync

/-- A team with the given name and no logo. -/
def sampleTeam (name : String) : Team := { name := some name.toList, logo := none }

/-- The match of the spec's scenario A: 18:00, Natus Vincere against FaZe,
tournament "Major", no logos. -/
def scenarioA : Match :=
  { time := some "18:00".toList, date := none, tournament := some "Major".toList,
    team1 := some (sampleTeam "Natus Vincere"), team2 := some (sampleTeam "FaZe") }

/-! ## The insertion sort meets the contract of `Array.prototype.sort` -/

section SortLemmas

open List

variable {α : Type} {f : α → α → Option Int}

theorem ConsistentComparator.mono {S T : List α} (h : ConsistentComparator f S)
    (hsub : ∀ a ∈ T, a ∈ S) : ConsistentComparator f T where
  refl a ha := h.refl a (hsub a ha)
  symm a ha b hb := h.symm a (hsub a ha) b (hsub b hb)
  trans_eq a ha b hb c hc := h.trans_eq a (hsub a ha) b (hsub b hb) c (hsub c hc)
  trans_lt a ha b hb c hc := h.trans_lt a (hsub a ha) b (hsub b hb) c (hsub c hc)
  trans_gt a ha b hb c hc := h.trans_gt a (hsub a ha) b (hsub b hb) c (hsub c hc)

/-- Under a consistent comparator `a < b` gives `b > a`. -/
theorem ConsistentComparator.pos_of_neg {S : List α} (h : ConsistentComparator f S)
    {a b : α} (ha : a ∈ S) (hb : b ∈ S) (hab : sortCompare f a b < 0) :
    0 < sortCompare f b a := by
  rcases lt_trichotomy (sortCompare f b a) 0 with hlt | heq | hgt
  · have := h.trans_lt a ha b hb a ha hab hlt
    rw [h.refl a ha] at this
    exact absurd this (lt_irrefl _)
  · have := h.symm b hb a ha heq
    omega
  · exact hgt

/-- Under a consistent comparator `a > b` gives `b < a`. -/
theorem ConsistentComparator.neg_of_pos {S : List α} (h : ConsistentComparator f S)
    {a b : α} (ha : a ∈ S) (hb : b ∈ S) (hab : 0 < sortCompare f a b) :
    sortCompare f b a < 0 := by
  rcases lt_trichotomy (sortCompare f b a) 0 with hlt | heq | hgt
  · exact hlt
  · have := h.symm b hb a ha heq
    omega
  · have := h.trans_gt a ha b hb a ha hab hgt
    rw [h.refl a ha] at this
    exact absurd this (lt_irrefl _)

/-- Under a consistent comparator `a < b` and `b = c` give `a < c`. -/
theorem ConsistentComparator.lt_of_lt_of_eq {S : List α} (h : ConsistentComparator f S)
    {a b c : α} (ha : a ∈ S) (hb : b ∈ S) (hc : c ∈ S)
    (hab : sortCompare f a b < 0) (hbc : sortCompare f b c = 0) :
    sortCompare f a c < 0 := by
  rcases lt_trichotomy (sortCompare f a c) 0 with hlt | heq | hgt
  · exact hlt
  · have hcb := h.symm b hb c hc hbc
    have := h.trans_eq a ha c hc b hb heq hcb
    omega
  · have hca := h.neg_of_pos ha hc hgt
    have := h.trans_lt c hc a ha b hb hca hab
    have hcb := h.symm b hb c hc hbc
    omega

/-- Under a consistent comparator `a = b` and `b < c` give `a < c`. -/
theorem ConsistentComparator.lt_of_eq_of_lt {S : List α} (h : ConsistentComparator f S)
    {a b c : α} (ha : a ∈ S) (hb : b ∈ S) (hc : c ∈ S)
    (hab : sortCompare f a b = 0) (hbc : sortCompare f b c < 0) :
    sortCompare f a c < 0 := by
  rcases lt_trichotomy (sortCompare f a c) 0 with hlt | heq | hgt
  · exact hlt
  · have hba := h.symm a ha b hb hab
    have := h.trans_eq b hb a ha c hc hba heq
    omega
  · have hca := h.neg_of_pos ha hc hgt
    have := h.trans_lt b hb c hc a ha hbc hca
    have hba := h.symm a ha b hb hab
    omega

/-- Under a consistent comparator "not greater" is the same as "smaller or
equal" read the other way round. -/
theorem ConsistentComparator.le_iff {S : List α} (h : ConsistentComparator f S)
    {a b : α} (ha : a ∈ S) (hb : b ∈ S) :
    ¬ sortCompare f b a < 0 ↔ sortCompare f a b ≤ 0 := by
  constructor
  · intro hn
    by_contra hgt
    exact hn (h.neg_of_pos ha hb (not_le.mp hgt))
  · intro hle hlt
    have := h.pos_of_neg hb ha hlt
    omega

/-- Under a consistent comparator `a < b` and `b ≤ c` give `a < c`. -/
theorem ConsistentComparator.lt_of_lt_of_le {S : List α} (h : ConsistentComparator f S)
    {a b c : α} (ha : a ∈ S) (hb : b ∈ S) (hc : c ∈ S)
    (hab : sortCompare f a b < 0) (hbc : ¬ sortCompare f c b < 0) :
    sortCompare f a c < 0 := by
  have hle := (h.le_iff hb hc).mp hbc
  rcases lt_or_eq_of_le hle with hlt | heq
  · exact h.trans_lt a ha b hb c hc hab hlt
  · exact h.lt_of_lt_of_eq ha hb hc hab heq

theorem insertSorted_perm (f : α → α → Option Int) (x : α) (l : List α) :
    (insertSorted f x l).Perm (x :: l) := by
  induction l with
  | nil => simp [insertSorted]
  | cons y ys ih =>
    unfold insertSorted
    split
    · exact Perm.refl _
    · exact (Perm.cons y ih).trans (Perm.swap x y ys)

theorem mem_insertSorted {x z : α} {l : List α} :
    z ∈ insertSorted f x l ↔ z = x ∨ z ∈ l := by
  rw [(insertSorted_perm f x l).mem_iff, mem_cons]

theorem sublist_insertSorted (f : α → α → Option Int) (x : α) (l : List α) :
    l <+ insertSorted f x l := by
  induction l with
  | nil => simp
  | cons y ys ih =>
    unfold insertSorted
    split
    · exact sublist_cons_self x _
    · exact ih.cons₂ y

/-- Inserting into a sorted list gives a sorted list. -/
theorem insertSorted_sorted {x : α} {l : List α}
    (h : ConsistentComparator f (x :: l))
    (hs : l.Pairwise (fun u v => ¬ sortCompare f v u < 0)) :
    (insertSorted f x l).Pairwise (fun u v => ¬ sortCompare f v u < 0) := by
  induction l with
  | nil => simp [insertSorted]
  | cons y ys ih =>
    have hx : x ∈ x :: y :: ys := mem_cons_self _ _
    have hy : y ∈ x :: y :: ys := mem_cons_of_mem _ (mem_cons_self _ _)
    rw [pairwise_cons] at hs
    unfold insertSorted
    split
    · rename_i hlt
      refine pairwise_cons.mpr ⟨?_, pairwise_cons.mpr hs⟩
      intro z hz
      have hzS : z ∈ x :: y :: ys := mem_cons_of_mem _ hz
      have hxz : sortCompare f x z < 0 := by
        rcases mem_cons.mp hz with rfl | hz'
        · exact hlt
        · exact h.lt_of_lt_of_le hx hy hzS hlt (hs.1 z hz')
      have := h.pos_of_neg hx hzS hxz
      omega
    · rename_i hnlt
      have h' : ConsistentComparator f (x :: ys) :=
        h.mono (fun a ha => by
          rcases mem_cons.mp ha with rfl | ha'
          · exact hx
          · exact mem_cons_of_mem _ (mem_cons_of_mem _ ha'))
      refine pairwise_cons.mpr ⟨?_, ih h' hs.2⟩
      intro z hz
      rcases mem_insertSorted.mp hz with rfl | hz'
      · exact hnlt
      · exact hs.1 z hz'

/-- An element of the sorted part that the new element does not compare
smaller than stays in front of the new element. -/
theorem pair_sublist_insertSorted {x a : α} {l : List α}
    (h : ConsistentComparator f (x :: l))
    (hs : l.Pairwise (fun u v => ¬ sortCompare f v u < 0))
    (ha : a ∈ l) (hxa : ¬ sortCompare f x a < 0) :
    [a, x] <+ insertSorted f x l := by
  induction l with
  | nil => simp at ha
  | cons y ys ih =>
    have hx : x ∈ x :: y :: ys := mem_cons_self _ _
    have hy : y ∈ x :: y :: ys := mem_cons_of_mem _ (mem_cons_self _ _)
    rw [pairwise_cons] at hs
    unfold insertSorted
    split
    · rename_i hlt
      exfalso
      rcases mem_cons.mp ha with rfl | ha'
      · exact hxa hlt
      · exact hxa (h.lt_of_lt_of_le hx hy (mem_cons_of_mem _ (mem_cons_of_mem _ ha')) hlt
          (hs.1 a ha'))
    · have h' : ConsistentComparator f (x :: ys) :=
        h.mono (fun b hb => by
          rcases mem_cons.mp hb with rfl | hb'
          · exact hx
          · exact mem_cons_of_mem _ (mem_cons_of_mem _ hb'))
      rcases mem_cons.mp ha with rfl | ha'
      · refine Sublist.cons₂ _ ?_
        exact singleton_sublist.mpr (mem_insertSorted.mpr (Or.inl rfl))
      · exact (ih h' hs.2 ha').cons y

theorem foldl_insertSorted_perm (f : α → α → Option Int) (xs acc : List α) :
    (xs.foldl (fun acc x => insertSorted f x acc) acc).Perm (acc ++ xs) := by
  induction xs generalizing acc with
  | nil => simp
  | cons x xs ih =>
    simp only [foldl_cons]
    refine (ih _).trans ?_
    refine ((insertSorted_perm f x acc).append_right xs).trans ?_
    exact (@perm_middle _ x acc xs).symm

theorem insertionSort_perm (f : α → α → Option Int) (xs : List α) :
    (insertionSort f xs).Perm xs := by
  simpa [insertionSort] using foldl_insertSorted_perm f xs []

/-- The invariant of the insertion sort: the sorted part is a sorted
rearrangement of the elements taken so far, in which every pair `a`, `b` of
them with `a` before `b` and `b` not smaller than `a` is still in this order. -/
theorem foldl_insertSorted_inv (xs pre acc : List α)
    (h : ConsistentComparator f (pre ++ xs))
    (hp : acc.Perm pre)
    (hs : acc.Pairwise (fun u v => ¬ sortCompare f v u < 0))
    (hst : ∀ a b, [a, b] <+ pre → ¬ sortCompare f b a < 0 → [a, b] <+ acc) :
    (xs.foldl (fun acc x => insertSorted f x acc) acc).Pairwise
        (fun u v => ¬ sortCompare f v u < 0) ∧
      ∀ a b, [a, b] <+ pre ++ xs → ¬ sortCompare f b a < 0 →
        [a, b] <+ xs.foldl (fun acc x => insertSorted f x acc) acc := by
  induction xs generalizing pre acc with
  | nil =>
    simp only [foldl_nil, append_nil]
    exact ⟨hs, hst⟩
  | cons x xs ih =>
    simp only [foldl_cons]
    have hcons : ConsistentComparator f (x :: acc) :=
      h.mono (fun a ha => by
        rcases mem_cons.mp ha with rfl | ha'
        · simp
        · exact mem_append_left _ (hp.mem_iff.mp ha'))
    have h2 : ConsistentComparator f ((pre ++ [x]) ++ xs) := by simpa using h
    have key := ih (pre ++ [x]) (insertSorted f x acc) h2
      ((insertSorted_perm f x acc).trans ((Perm.cons x hp).trans (perm_append_singleton x pre).symm))
      (insertSorted_sorted hcons hs)
      (by
        intro a b hab hba
        rcases sublist_append_iff.mp hab with ⟨l₁, l₂, hl, h₁, h₂⟩
        rcases sublist_singleton.mp h₂ with rfl | rfl
        · simp only [append_nil] at hl
          subst hl
          exact (hst a b h₁ hba).trans (sublist_insertSorted f x acc)
        · match l₁, hl, h₁ with
          | [c], hl, h₁ =>
            simp only [singleton_append, cons.injEq, and_true] at hl
            obtain ⟨rfl, rfl⟩ := hl
            exact pair_sublist_insertSorted hcons hs
              (hp.mem_iff.mpr (singleton_sublist.mp h₁)) hba
          | [], hl, _ => simp at hl
          | _ :: _ :: _, hl, _ => simp at hl)
    rw [append_assoc, singleton_append] at key
    exact key

/-- The insertion sort meets what ECMA-262 requires of `Array.prototype.sort`. -/
theorem insertionSort_contract : ArraySortContract (insertionSort (α := α)) where
  perm := insertionSort_perm
  sorted f xs h := by
    have := foldl_insertSorted_inv (f := f) xs [] [] (by simpa using h) (Perm.refl _)
      Pairwise.nil (by intro a b hab; simp at hab)
    exact this.1
  stable f xs h a b hab h0 := by
    have := foldl_insertSorted_inv (f := f) xs [] [] (by simpa using h) (Perm.refl _)
      Pairwise.nil (by intro a b hab; simp at hab)
    refine this.2 a b (by simpa using hab) ?_
    have ha : a ∈ xs := hab.subset (by simp)
    have hb : b ∈ xs := hab.subset (by simp)
    have := h.symm a ha b hb h0
    omega

end SortLemmas

/-! ## Canvas size (C1, C2) -/

section CanvasSize

open List

variable {sort : (Match → Match → Option Int) → List Match → List Match}

theorem sortedMatches_perm (hsort : ArraySortContract sort)
    (dateParse toNumber : JSString → Option Int) (matchList : Option (List Match)) :
    (sortedMatches sort dateParse toNumber matchList).Perm (matchList.getD []) :=
  hsort.perm _ _

theorem sortedMatches_length (hsort : ArraySortContract sort)
    (dateParse toNumber : JSString → Option Int) (matchList : Option (List Match)) :
    (sortedMatches sort dateParse toNumber matchList).length = (matchList.getD []).length :=
  (sortedMatches_perm hsort dateParse toNumber matchList).length_eq

theorem canvasHeight_eq (hsort : ArraySortContract sort)
    (dateParse toNumber : JSString → Option Int) (matchList : Option (List Match)) :
    (drawGraphic sort dateParse toNumber matchList).canvasHeight =
      90 + matchesHeight (matchList.getD []).length + 30 + 15 := by
  simp only [drawGraphic, sortedMatches_length hsort]

/-- C1. For every input of `drawGraphic` and every `sort` that meets the
contract of `Array.prototype.sort`, the canvas is 1200 wide and
`90 + m + 30 + 15` high, where `m = 92 * n` for a list of `n ≥ 1` matches and
`m = 100` for the empty list and for an input that is not an array; one match
gives 1200 x 227 and no match gives 1200 x 235. -/
theorem drawGraphic_canvas_size
    (sort : (Match → Match → Option Int) → List Match → List Match)
    (hsort : ArraySortContract sort) (dateParse toNumber : JSString → Option Int) :
    (∀ ms : List Match, 1 ≤ ms.length →
      (drawGraphic sort dateParse toNumber (some ms)).canvasWidth = 1200 ∧
      (drawGraphic sort dateParse toNumber (some ms)).canvasHeight =
        90 + 92 * ms.length + 30 + 15) ∧
    ((drawGraphic sort dateParse toNumber (some [])).canvasWidth = 1200 ∧
      (drawGraphic sort dateParse toNumber (some [])).canvasHeight = 90 + 100 + 30 + 15) ∧
    ((drawGraphic sort dateParse toNumber none).canvasWidth = 1200 ∧
      (drawGraphic sort dateParse toNumber none).canvasHeight = 90 + 100 + 30 + 15) ∧
    (∀ m : Match, (drawGraphic sort dateParse toNumber (some [m])).canvasWidth = 1200 ∧
      (drawGraphic sort dateParse toNumber (some [m])).canvasHeight = 227) ∧
    (drawGraphic sort dateParse toNumber (some [])).canvasHeight = 235 := by
  refine ⟨?_, ⟨rfl, ?_⟩, ⟨rfl, ?_⟩, ?_, ?_⟩
  · intro ms hms
    refine ⟨rfl, ?_⟩
    rw [canvasHeight_eq hsort]
    have : ms.length * 92 ≠ 0 := by omega
    simp only [Option.getD_some, matchesHeight, if_neg this]
    omega
  · rw [canvasHeight_eq hsort]; rfl
  · rw [canvasHeight_eq hsort]; rfl
  · intro m
    refine ⟨rfl, ?_⟩
    rw [canvasHeight_eq hsort]; rfl
  · rw [canvasHeight_eq hsort]; rfl

/-- C1, at a concrete input: one match, sorted by the insertion sort. -/
theorem drawGraphic_canvas_size_witness :
    (drawGraphic insertionSort sampleDateParse decimalNumber
        (some [sampleMatch (some "18:00") none])).canvasWidth = 1200 ∧
    (drawGraphic insertionSort sampleDateParse decimalNumber
        (some [sampleMatch (some "18:00") none])).canvasHeight = 227 :=
  ((drawGraphic_canvas_size insertionSort insertionSort_contract sampleDateParse
    decimalNumber).2.2.2.1 (sampleMatch (some "18:00") none))

/-- C2, refuted as stated: for the empty match list the canvas is 235 high,
not `90 + max 0 1 * 92 + (30 + 15) = 227`. -/
theorem canvasHeight_formula_counterexample :
    (drawGraphic insertionSort sampleDateParse decimalNumber (some [])).canvasHeight = 235 ∧
    (drawGraphic insertionSort sampleDateParse decimalNumber (some [])).canvasHeight ≠
      90 + max ([] : List Match).length 1 * 92 + (30 + 15) := by
  decide

/-- C2, amended. For every match list `M` and every `sort` that meets the
contract, the canvas height is `90 + len(M) * 92 + (30 + 15)` when `M` is not
empty, which is then also `90 + max(len(M), 1) * 92 + (30 + 15)`, and
`90 + 100 + (30 + 15)` when `M` is empty: the empty list counts as 100 pixels,
not as one row. -/
theorem canvasHeight_formula
    (sort : (Match → Match → Option Int) → List Match → List Match)
    (hsort : ArraySortContract sort) (dateParse toNumber : JSString → Option Int)
    (M : List Match) :
    (drawGraphic sort dateParse toNumber (some M)).canvasHeight =
      90 + (if M.length = 0 then 100 else M.length * 92) + (30 + 15) ∧
    (M ≠ [] → (drawGraphic sort dateParse toNumber (some M)).canvasHeight =
      90 + max M.length 1 * 92 + (30 + 15)) := by
  have h := canvasHeight_eq hsort dateParse toNumber (some M)
  simp only [Option.getD_some, matchesHeight] at h
  constructor
  · rw [h]
    by_cases h0 : M.length = 0
    · simp [h0]
    · have : M.length * 92 ≠ 0 := by omega
      simp only [if_neg this, if_neg h0]
  · intro hM
    have hpos : 1 ≤ M.length := by
      cases M with
      | nil => exact absurd rfl hM
      | cons _ _ => simp
    have : M.length * 92 ≠ 0 := by omega
    rw [h, if_neg this, max_eq_left hpos]

/-- C2 amended, at concrete inputs: three matches and the contract met by the
insertion sort. -/
theorem canvasHeight_formula_witness :
    (drawGraphic insertionSort sampleDateParse decimalNumber
        (some [sampleMatch (some "18:00") none, sampleMatch (some "12:30") none,
          sampleMatch none none])).canvasHeight = 90 + 3 * 92 + (30 + 15) :=
  (canvasHeight_formula insertionSort insertionSort_contract sampleDateParse decimalNumber
    [sampleMatch (some "18:00") none, sampleMatch (some "12:30") none,
      sampleMatch none none]).1

end CanvasSize

/-! ## Row order (C3, C4, C5) -/

section RowOrder

open List

variable {sort : (Match → Match → Option Int) → List Match → List Match}

theorem paintedMatches_eq (sort : (Match → Match → Option Int) → List Match → List Match)
    (dateParse toNumber : JSString → Option Int) (matchList : Option (List Match)) :
    paintedMatches sort dateParse toNumber matchList =
      sortedMatches sort dateParse toNumber matchList := by
  simp only [paintedMatches, drawGraphic, map_map]
  exact enum_map_snd _

/-- A comparator that is the difference of a key is consistent. -/
theorem consistent_of_key {α : Type} {f : α → α → Option Int} {S : List α} (key : α → Int)
    (hkey : ∀ a ∈ S, ∀ b ∈ S, sortCompare f a b = key a - key b) :
    ConsistentComparator f S where
  refl a ha := by rw [hkey a ha a ha]; omega
  symm a ha b hb := by rw [hkey a ha b hb, hkey b hb a ha]; omega
  trans_eq a ha b hb c hc := by rw [hkey a ha b hb, hkey b hb c hc, hkey a ha c hc]; omega
  trans_lt a ha b hb c hc := by rw [hkey a ha b hb, hkey b hb c hc, hkey a ha c hc]; omega
  trans_gt a ha b hb c hc := by rw [hkey a ha b hb, hkey b hb c hc, hkey a ha c hc]; omega

/-- A sort that meets the contract, called with a comparator that is the
difference of a key, orders by the key and keeps equal keys in place. -/
theorem sort_of_key {α : Type} {sort : (α → α → Option Int) → List α → List α}
    (hsort : ArraySortContract sort) {f : α → α → Option Int} {xs : List α} (key : α → Int)
    (hkey : ∀ a ∈ xs, ∀ b ∈ xs, sortCompare f a b = key a - key b) :
    (sort f xs).Pairwise (fun a b => key a ≤ key b) ∧
      ∀ a b, [a, b] <+ xs → key a = key b → [a, b] <+ sort f xs := by
  have hc := consistent_of_key key hkey
  have hmem : ∀ a, a ∈ sort f xs → a ∈ xs := fun a ha => (hsort.perm f xs).mem_iff.mp ha
  constructor
  · refine (hsort.sorted f xs hc).imp_of_mem ?_
    intro a b ha hb hab
    rw [hkey b (hmem b hb) a (hmem a ha)] at hab
    omega
  · intro a b hab hk
    refine hsort.stable f xs hc a b hab ?_
    rw [hkey a (hab.subset (by simp)) b (hab.subset (by simp))]
    omega

theorem compareMatches_of_dates (dateParse toNumber : JSString → Option Int) {a b : Match}
    (ha : truthy a.date = true) (hb : truthy b.date = true)
    (hpa : (dateParse (strOf a.date)).isSome = true)
    (hpb : (dateParse (strOf b.date)).isSome = true) :
    sortCompare (compareMatches dateParse toNumber) a b =
      dateValue dateParse a - dateValue dateParse b := by
  obtain ⟨x, hx⟩ := Option.isSome_iff_exists.mp hpa
  obtain ⟨y, hy⟩ := Option.isSome_iff_exists.mp hpb
  simp [sortCompare, compareMatches, dateValue, ha, hb, hx, hy, numSub]

theorem isDigit_ne_colon {c : Char} (h : c.isDigit = true) : c ≠ ':' := by
  rintro rfl
  exact absurd h (by decide)

theorem eq_of_isHHMM {t : JSString} (ht : isHHMM t = true) :
    ∃ h1 h2 m1 m2 : Char, h1.isDigit = true ∧ h2.isDigit = true ∧ m1.isDigit = true ∧
      m2.isDigit = true ∧ t = [h1, h2, ':', m1, m2] := by
  rcases t with _ | ⟨h1, _ | ⟨h2, _ | ⟨c, _ | ⟨m1, _ | ⟨m2, _ | ⟨x, r⟩⟩⟩⟩⟩⟩ <;>
    simp [isHHMM] at ht
  obtain ⟨⟨⟨⟨d1, d2⟩, rfl⟩, d3⟩, d4⟩ := ht
  exact ⟨h1, h2, m1, m2, d1, d2, d3, d4, rfl⟩

theorem minutesOf_of_isHHMM {toNumber : JSString → Option Int} (hnum : ReadsTwoDigits toNumber)
    {t : JSString} (ht : isHHMM t = true) : minutesOf toNumber t = some (clockMinutes t) := by
  obtain ⟨h1, h2, m1, m2, d1, d2, d3, d4, rfl⟩ := eq_of_isHHMM ht
  simp [minutesOf, splitOn, isDigit_ne_colon d1, isDigit_ne_colon d2, isDigit_ne_colon d3,
    isDigit_ne_colon d4, hnum h1 h2 d1 d2, hnum m1 m2 d3 d4, clockMinutes]
  ring

theorem truthy_of_isHHMM {v : Option JSString} (ht : isHHMM (strOf v) = true) :
    truthy v = true := by
  obtain ⟨h1, h2, m1, m2, -, -, -, -, h⟩ := eq_of_isHHMM ht
  cases v with
  | none => simp [strOf] at h
  | some t =>
    simp only [strOf] at h
    subst h
    rfl

theorem compareMatches_of_times (dateParse : JSString → Option Int)
    {toNumber : JSString → Option Int} (hnum : ReadsTwoDigits toNumber) {a b : Match}
    (ha : truthy a.date = false)
    (hta : isHHMM (strOf a.time) = true) (htb : isHHMM (strOf b.time) = true) :
    sortCompare (compareMatches dateParse toNumber) a b =
      clockMinutes (strOf a.time) - clockMinutes (strOf b.time) := by
  simp [sortCompare, compareMatches, ha, truthy_of_isHHMM hta, truthy_of_isHHMM htb,
    minutesOf_of_isHHMM hnum hta, minutesOf_of_isHHMM hnum htb, numSub]

theorem decimalNumber_readsTwoDigits : ReadsTwoDigits decimalNumber := by
  intro d1 d2 h1 h2
  simp [decimalNumber, h1, h2]

/-- C4.  For every match list in which no match has a date and every match
has a time of the form `"HH:MM"`, every `sort` that meets the contract and
every `Number` that reads two digits as their number, the rows are painted in
ascending order of the minutes since midnight `60 * HH + MM`, and matches
with equal minutes keep their input order. -/
theorem timed_rows_ascending
    (sort : (Match → Match → Option Int) → List Match → List Match)
    (hsort : ArraySortContract sort) (dateParse toNumber : JSString → Option Int)
    (hnum : ReadsTwoDigits toNumber) (ms : List Match)
    (htime : ∀ m ∈ ms, truthy m.date = false ∧ isHHMM (strOf m.time) = true) :
    (paintedMatches sort dateParse toNumber (some ms)).Perm ms ∧
    (paintedMatches sort dateParse toNumber (some ms)).Pairwise
      (fun x y => clockMinutes (strOf x.time) ≤ clockMinutes (strOf y.time)) ∧
    ∀ a b, [a, b] <+ ms → clockMinutes (strOf a.time) = clockMinutes (strOf b.time) →
      [a, b] <+ paintedMatches sort dateParse toNumber (some ms) := by
  rw [paintedMatches_eq]
  refine ⟨sortedMatches_perm hsort dateParse toNumber (some ms), ?_⟩
  exact sort_of_key hsort (fun m => clockMinutes (strOf m.time)) (fun a ha b hb =>
    compareMatches_of_times dateParse hnum (htime a ha).1 (htime a ha).2 (htime b hb).2)

/-- C4, at a concrete input: 18:00, 09:30, 18:00 (another tournament), 00:15. -/
theorem timed_rows_ascending_witness :
    (∀ m ∈ [sampleMatch (some "18:00") none, sampleMatch (some "09:30") none,
        { sampleMatch (some "18:00") none with tournament := some "Major".toList },
        sampleMatch (some "00:15") none],
      truthy m.date = false ∧ isHHMM (strOf m.time) = true) ∧
    (paintedMatches insertionSort sampleDateParse decimalNumber
        (some [sampleMatch (some "18:00") none, sampleMatch (some "09:30") none,
          { sampleMatch (some "18:00") none with tournament := some "Major".toList },
          sampleMatch (some "00:15") none])).Pairwise
      (fun x y => clockMinutes (strOf x.time) ≤ clockMinutes (strOf y.time)) :=
  ⟨by decide, (timed_rows_ascending insertionSort insertionSort_contract sampleDateParse
    decimalNumber decimalNumber_readsTwoDigits _ (by decide)).2.1⟩

/-- The comparator of `drawGraphic` is consistent for a list in which every
match has a date that parses. -/
theorem consistent_of_dates (dateParse toNumber : JSString → Option Int) (ms : List Match)
    (hdate : ∀ m ∈ ms, truthy m.date = true ∧ (dateParse (strOf m.date)).isSome = true) :
    ConsistentComparator (compareMatches dateParse toNumber) ms :=
  consistent_of_key (dateValue dateParse) (fun a ha b hb =>
    compareMatches_of_dates dateParse toNumber (hdate a ha).1 (hdate b hb).1
      (hdate a ha).2 (hdate b hb).2)

/-- The comparator of `drawGraphic` is consistent for a list in which no match
has a date and every match has a time `"HH:MM"`. -/
theorem consistent_of_times (dateParse : JSString → Option Int)
    {toNumber : JSString → Option Int} (hnum : ReadsTwoDigits toNumber) (ms : List Match)
    (htime : ∀ m ∈ ms, truthy m.date = false ∧ isHHMM (strOf m.time) = true) :
    ConsistentComparator (compareMatches dateParse toNumber) ms :=
  consistent_of_key (fun m => clockMinutes (strOf m.time)) (fun a ha b hb =>
    compareMatches_of_times dateParse hnum (htime a ha).1 (htime a ha).2 (htime b hb).2)

/-- The comparator of `drawGraphic` is not consistent for the three matches
of the example to C5: `c < b` and `b < a`, but `c = a`. -/
theorem not_consistent_sample :
    ¬ ConsistentComparator (compareMatches sampleDateParse decimalNumber)
      [sampleMatch (some "10:00") none,
        sampleMatch (some "09:00") (some "2024-05-02T18:00:00Z"),
        sampleMatch none (some "2024-05-01T18:00:00Z")] := by
  intro h
  have := h.trans_lt (sampleMatch none (some "2024-05-01T18:00:00Z")) (by decide)
    (sampleMatch (some "09:00") (some "2024-05-02T18:00:00Z")) (by decide)
    (sampleMatch (some "10:00") none) (by decide) (by decide) (by decide)
  exact absurd this (by decide)

end RowOrder

/-! ## Text truncation (C6, C7) -/

section Truncate

open List

variable {W : Type} [LinearOrder W]

theorem truncateLoop_succ (measure : JSString → W) (maxWidth : W) (fuel : Nat)
    (t : JSString) :
    truncateLoop measure maxWidth (fuel + 1) t =
      if maxWidth < measure (t ++ ellipsis) ∧ 0 < t.length then
        truncateLoop measure maxWidth fuel t.dropLast
      else t := rfl

/-- One more round of fuel than the length of the text changes nothing. -/
theorem truncateLoop_fuel_succ (measure : JSString → W) (maxWidth : W) (fuel : Nat)
    (t : JSString) (hfuel : t.length ≤ fuel) :
    truncateLoop measure maxWidth (fuel + 1) t = truncateLoop measure maxWidth fuel t := by
  induction fuel generalizing t with
  | zero =>
    have : t = [] := length_eq_zero.mp (Nat.le_zero.mp hfuel)
    subst this
    simp [truncateLoop]
  | succ n ih =>
    rw [truncateLoop_succ measure maxWidth (n + 1) t, truncateLoop_succ measure maxWidth n t]
    by_cases hc : maxWidth < measure (t ++ ellipsis) ∧ 0 < t.length
    · rw [if_pos hc, if_pos hc]
      exact ih t.dropLast (by rw [length_dropLast]; omega)
    · rw [if_neg hc, if_neg hc]

/-- More fuel than the length of the text changes nothing. -/
theorem truncateLoop_fuel (measure : JSString → W) (maxWidth : W) (extra : Nat)
    (t : JSString) :
    truncateLoop measure maxWidth (t.length + extra) t =
      truncateLoop measure maxWidth t.length t := by
  induction extra with
  | zero => rfl
  | succ k ih =>
    rw [← ih]
    exact truncateLoop_fuel_succ measure maxWidth (t.length + k) t (by omega)

end Truncate

/-! ## Team initials (C8) -/

section Initials

open List

end Initials

/-! ## Proxy URLs (C9, C10) -/

section Proxy

open List

theorem includes_iff_occurs (s t : JSString) : includes s t = true ↔ t <:+: s := by
  simp only [includes, any_eq_true, mem_tails, isPrefixOf_iff_prefix]
  rw [infix_iff_prefix_suffix]
  exact ⟨fun ⟨x, h1, h2⟩ => ⟨x, h2, h1⟩, fun ⟨x, h1, h2⟩ => ⟨x, h2, h1⟩⟩

/-- C9.  For every URL that does not start with `"data:"` and contains the
name of the CDN host, `cdn.pandascore.co`, `getProxyUrl` returns
`"https://corsproxy.io/?"` followed by `encodeURIComponent` of the whole URL;
for the empty and the absent URL and for every URL that starts with `"data:"`
it returns its input. -/
theorem getProxyUrl_spec (encodeURIComponent : JSString → JSString) (url : JSString) :
    (¬ "data:".toList <+: url → "cdn.pandascore.co".toList <:+: url →
      getProxyUrl encodeURIComponent (some url) =
        some ("https://corsproxy.io/?".toList ++ encodeURIComponent url)) ∧
    getProxyUrl encodeURIComponent none = none ∧
    getProxyUrl encodeURIComponent (some []) = some [] ∧
    ("data:".toList <+: url → getProxyUrl encodeURIComponent (some url) = some url) := by
  refine ⟨?_, rfl, rfl, ?_⟩
  · intro hdata hcdn
    have hne : url ≠ [] := by
      rintro rfl
      exact absurd hcdn (by decide)
    have h1 : truthy (some url) = true := by
      cases url with
      | nil => exact absurd rfl hne
      | cons c cs => rfl
    have h2 : ("data:".toList.isPrefixOf url) = false := by
      cases h : "data:".toList.isPrefixOf url with
      | false => rfl
      | true => exact absurd ( isPrefixOf_iff_prefix.mp h) hdata
    have h3 : includes url "cdn.pandascore.co".toList = true :=
      (includes_iff_occurs _ _).mpr hcdn
    simp only [getProxyUrl, strOf, h1, h2, h3, hne]
    simp
  · intro hdata
    have h2 : ("data:".toList.isPrefixOf url) = true := isPrefixOf_iff_prefix.mpr hdata
    simp only [getProxyUrl, strOf, h2]
    simp

/-- C9, at a concrete input, with the percent-encoding written out. -/
theorem getProxyUrl_spec_witness :
    getProxyUrl percentEncode (some "https://cdn.pandascore.co/images/team/image/1.png".toList) =
      some ("https://corsproxy.io/?".toList ++
        "https%3A%2F%2Fcdn.pandascore.co%2Fimages%2Fteam%2Fimage%2F1.png".toList) :=
  (getProxyUrl_spec percentEncode "https://cdn.pandascore.co/images/team/image/1.png".toList).1
    (by decide) (by decide)

/-- C10, the code at a URL of another host: the host of
`https://example.com/cdn.pandascore.co/logo.png` is `example.com`, the name
of the CDN host occurs in its path only, and `getProxyUrl` does not return the
URL unchanged but sends it through the proxy. -/
theorem getProxyUrl_other_host :
    urlHost "https://example.com/cdn.pandascore.co/logo.png".toList = "example.com".toList ∧
    urlHost "https://example.com/cdn.pandascore.co/logo.png".toList ≠
      "cdn.pandascore.co".toList ∧
    getProxyUrl percentEncode (some "https://example.com/cdn.pandascore.co/logo.png".toList) =
      some "https://corsproxy.io/?https%3A%2F%2Fexample.com%2Fcdn.pandascore.co%2Flogo.png".toList ∧
    getProxyUrl percentEncode (some "https://example.com/cdn.pandascore.co/logo.png".toList) ≠
      some "https://example.com/cdn.pandascore.co/logo.png".toList := by
  decide

/-- A URL in which the name of the CDN host does not occur at all is returned
unchanged. -/
theorem getProxyUrl_of_not_occurs (encodeURIComponent : JSString → JSString) (url : JSString)
    (h : ¬ "cdn.pandascore.co".toList <:+: url) :
    getProxyUrl encodeURIComponent (some url) = some url := by
  have h3 : includes url "cdn.pandascore.co".toList = false := by
    cases hi : includes url "cdn.pandascore.co".toList with
    | false => rfl
    | true => exact absurd ((includes_iff_occurs _ _).mp hi) h
  simp only [getProxyUrl, strOf, h3]
  simp

end Proxy

/-! ## Row geometry (C14, C15, C16, C17) -/

section RowGeometry

open List

theorem drawTeam_some (team : Team) (x y : ℚ) (isTeam1 : Bool) :
    drawTeam (some team) x y isTeam1 =
      some { logoX := x - 49 / 2, logoY := y - 49 / 2, logoSize := 49,
             textX := if isTeam1 then x - 49 - 16 else x + 49 / 2 + 16,
             textY := y, textAlignRight := isTeam1 } := by
  cases isTeam1 <;> simp [drawTeam]

theorem drawMatchRow_centerX (width : ℚ) (m : Match) (y : ℚ) :
    (drawMatchRow width m y).centerX = width / 2 + 28 := by
  simp only [drawMatchRow]
  ring

theorem drawMatchRow_team1 (width : ℚ) (m : Match) (y : ℚ) :
    (drawMatchRow width m y).team1 =
      drawTeam m.team1 ((drawMatchRow width m y).centerX - 80 - 49 / 2) y true := rfl

theorem drawMatchRow_team2 (width : ℚ) (m : Match) (y : ℚ) :
    (drawMatchRow width m y).team2 =
      drawTeam m.team2 ((drawMatchRow width m y).centerX + 80 + 49 / 2) y false := rfl

/-- C15, the code for both teams: the name of team 2 starts 16 px right of
the right edge of its logo slot, but the name of team 1 ends `49/2 + 16 =
40.5` px left of the left edge of its logo slot, not 16 px: `drawTeam` takes
the whole logo size off `x` for team 1 and half of it for team 2.  In the
row of scenario A the slot of team 1 begins at 499 and its name ends at 458.5. -/
theorem team_name_gap (team : Team) (x y : ℚ) :
    (∃ t1 t2 : TeamLayout, drawTeam (some team) x y true = some t1 ∧
      drawTeam (some team) x y false = some t2 ∧
      t2.textX - (t2.logoX + t2.logoSize) = 16 ∧
      t1.logoX - t1.textX = 49 / 2 + 16 ∧
      t1.logoX - t1.textX ≠ 16) ∧
    (drawMatchRow 1200 scenarioA 151).team1 =
      some { logoX := 499, logoY := 253 / 2, logoSize := 49, textX := 917 / 2, textY := 151,
             textAlignRight := true } := by
  refine ⟨⟨_, _, drawTeam_some team x y true, drawTeam_some team x y false, ?_, ?_, ?_⟩, ?_⟩
  · simp only [Bool.false_eq_true, if_false]; ring
  · simp only [if_true]; ring
  · simp only [if_true]
    intro h
    have h' : x - 49 / 2 - (x - 49 - 16) = 81 / 2 := by ring
    rw [h'] at h
    norm_num at h
  · norm_num [drawMatchRow, drawTeam, scenarioA]

/-- C16, refuted as stated: on the 1200 px canvas the `vs` marker is drawn at
`x = 628`, while the horizontal centre of the row rectangle is
`rowX + rowWidth / 2 = 600`. -/
theorem vs_marker_centre_counterexample :
    (drawMatchRow 1200 scenarioA 151).centerX = 628 ∧
    (drawMatchRow 1200 scenarioA 151).rowX + (drawMatchRow 1200 scenarioA 151).rowWidth / 2
      = 600 ∧
    (drawMatchRow 1200 scenarioA 151).centerX ≠
      (drawMatchRow 1200 scenarioA 151).rowX + (drawMatchRow 1200 scenarioA 151).rowWidth / 2 := by
  norm_num [drawMatchRow]

/-- C16, amended.  In every row the `x` at which the `vs` marker is drawn, and
about which the two team logos are placed symmetrically, is the horizontal
centre of the match-content zone, which begins 180 px after the time label
(itself 38 px inside the row) and is the row less 180 px and 200 px wide:
`rowX + 38 + 180 + (rowWidth - 180 - 200) / 2`.  That is 28 px to the right
of the centre of the row rectangle: 628 on the 1200 px canvas. -/
theorem vs_marker_centre (width y : ℚ) (m : Match) :
    (drawMatchRow width m y).centerX =
      (drawMatchRow width m y).rowX + 38 + 180 +
        ((drawMatchRow width m y).rowWidth - 180 - 200) / 2 ∧
    (drawMatchRow width m y).centerX =
      (drawMatchRow width m y).rowX + (drawMatchRow width m y).rowWidth / 2 + 28 ∧
    (width = 1200 → (drawMatchRow width m y).centerX = 628) ∧
    (∀ t1 t2 : TeamLayout, (drawMatchRow width m y).team1 = some t1 →
      (drawMatchRow width m y).team2 = some t2 →
      (drawMatchRow width m y).centerX - (t1.logoX + t1.logoSize / 2) =
        (t2.logoX + t2.logoSize / 2) - (drawMatchRow width m y).centerX) := by
  refine ⟨?_, ?_, ?_, ?_⟩
  · simp only [drawMatchRow]
  · simp only [drawMatchRow]; ring
  · intro hw
    rw [drawMatchRow_centerX, hw]
    norm_num
  · intro t1 t2 h1 h2
    rw [drawMatchRow_team1] at h1
    rw [drawMatchRow_team2] at h2
    cases ht1 : m.team1 with
    | none => rw [ht1] at h1; simp [drawTeam] at h1
    | some a =>
      cases ht2 : m.team2 with
      | none => rw [ht2] at h2; simp [drawTeam] at h2
      | some b =>
        rw [ht1, drawTeam_some] at h1
        rw [ht2, drawTeam_some] at h2
        cases Option.some.inj h1
        cases Option.some.inj h2
        simp only
        ring

/-- C16 amended, at a concrete input: the row of scenario A on the 1200 px
canvas. -/
theorem vs_marker_centre_witness :
    (drawMatchRow 1200 scenarioA 151).centerX = 628 :=
  (vs_marker_centre 1200 151 scenarioA).2.2.1 rfl

theorem rowLayouts_getElem? (sort : (Match → Match → Option Int) → List Match → List Match)
    (dateParse toNumber : JSString → Option Int) (matchList : Option (List Match)) (i : Nat) :
    (rowLayouts (drawGraphic sort dateParse toNumber matchList))[i]? =
      (sortedMatches sort dateParse toNumber matchList)[i]?.map
        (fun m => drawMatchRow 1200 m (((90 + 15 + i * 92 + 92 / 2 : Nat) : ℚ))) := by
  simp only [rowLayouts, drawGraphic, getElem?_map, getElem?_enum, Option.map_map]
  cases (sortedMatches sort dateParse toNumber matchList)[i]? with
  | none => rfl
  | some m => simp

theorem rowLayouts_length (sort : (Match → Match → Option Int) → List Match → List Match)
    (hsort : ArraySortContract sort)
    (dateParse toNumber : JSString → Option Int) (matchList : Option (List Match)) :
    (rowLayouts (drawGraphic sort dateParse toNumber matchList)).length =
      (matchList.getD []).length := by
  simp only [rowLayouts, drawGraphic, length_map, enum_length]
  exact sortedMatches_length hsort dateParse toNumber matchList

/-- The background rectangle of the row with index `i`. -/
theorem drawMatchRow_rect (m : Match) (i : Nat) :
    (drawMatchRow 1200 m (((90 + 15 + i * 92 + 92 / 2 : Nat) : ℚ))).rowX = 24 ∧
    (drawMatchRow 1200 m (((90 + 15 + i * 92 + 92 / 2 : Nat) : ℚ))).rowWidth = 1152 ∧
    (drawMatchRow 1200 m (((90 + 15 + i * 92 + 92 / 2 : Nat) : ℚ))).rowY = 115 + 92 * (i : ℚ) ∧
    (drawMatchRow 1200 m (((90 + 15 + i * 92 + 92 / 2 : Nat) : ℚ))).rowHeight = 72 := by
  refine ⟨rfl, ?_, ?_, rfl⟩
  · simp only [drawMatchRow]; norm_num
  · simp only [drawMatchRow]
    push_cast
    ring

/-- C17.  For every list of `n ≥ 1` matches, every `sort` that meets the
contract and every index `i < n`, there is a row `i`, and its background
rectangle spans `x` from 24 to 1176 and `y` from `115 + 92 * i` to
`187 + 92 * i`; the next row, when there is one, begins exactly 20 px below
it, so consecutive rows do not overlap; every row lies below the 90 px title
band and inside the canvas of width 1200 and height `90 + 92 * n + 45`. -/
theorem row_rectangles
    (sort : (Match → Match → Option Int) → List Match → List Match)
    (hsort : ArraySortContract sort) (dateParse toNumber : JSString → Option Int)
    (ms : List Match) (hn : 1 ≤ ms.length) (i : Nat) (hi : i < ms.length) :
    (drawGraphic sort dateParse toNumber (some ms)).canvasWidth = 1200 ∧
    (drawGraphic sort dateParse toNumber (some ms)).canvasHeight = 90 + 92 * ms.length + 45 ∧
    (rowLayouts (drawGraphic sort dateParse toNumber (some ms))).length = ms.length ∧
    ∃ r : RowLayout,
      (rowLayouts (drawGraphic sort dateParse toNumber (some ms)))[i]? = some r ∧
      r.rowX = 24 ∧ r.rowX + r.rowWidth = 1176 ∧
      r.rowY = 115 + 92 * (i : ℚ) ∧ r.rowY + r.rowHeight = 187 + 92 * (i : ℚ) ∧
      90 ≤ r.rowY ∧ 0 ≤ r.rowX ∧
      r.rowX + r.rowWidth ≤ ((drawGraphic sort dateParse toNumber (some ms)).canvasWidth : ℚ) ∧
      r.rowY + r.rowHeight ≤
        ((drawGraphic sort dateParse toNumber (some ms)).canvasHeight : ℚ) ∧
      ∀ r' : RowLayout,
        (rowLayouts (drawGraphic sort dateParse toNumber (some ms)))[i + 1]? = some r' →
        r'.rowY - (r.rowY + r.rowHeight) = 20 ∧ r.rowY + r.rowHeight < r'.rowY := by
  have hlen := sortedMatches_length hsort dateParse toNumber (some ms)
  simp only [Option.getD_some] at hlen
  have hH : (drawGraphic sort dateParse toNumber (some ms)).canvasHeight =
      90 + 92 * ms.length + 45 := by
    rw [canvasHeight_eq hsort]
    have : ms.length * 92 ≠ 0 := by omega
    simp only [Option.getD_some, matchesHeight, if_neg this]
    omega
  refine ⟨rfl, hH, rowLayouts_length sort hsort dateParse toNumber (some ms), ?_⟩
  have hi' : i < (sortedMatches sort dateParse toNumber (some ms)).length := by omega
  obtain ⟨hx, hw, hy, hh⟩ :=
    drawMatchRow_rect ((sortedMatches sort dateParse toNumber (some ms))[i]) i
  refine ⟨drawMatchRow 1200 ((sortedMatches sort dateParse toNumber (some ms))[i])
    (((90 + 15 + i * 92 + 92 / 2 : Nat) : ℚ)), ?_, hx, ?_, hy, ?_, ?_, ?_, ?_, ?_, ?_⟩
  · rw [rowLayouts_getElem?, getElem?_eq_getElem hi']
    rfl
  · rw [hx, hw]; norm_num
  · rw [hy, hh]; ring
  · rw [hy]
    have : (0 : ℚ) ≤ (i : ℚ) := Nat.cast_nonneg i
    linarith
  · rw [hx]; norm_num
  · rw [hx, hw]
    show (24 : ℚ) + 1152 ≤ ((1200 : Nat) : ℚ)
    norm_num
  · rw [hy, hh, hH]
    have : (i : ℚ) + 1 ≤ (ms.length : ℚ) := by exact_mod_cast hi
    push_cast
    linarith
  · intro r' hr'
    rw [rowLayouts_getElem?] at hr'
    cases hm : (sortedMatches sort dateParse toNumber (some ms))[i + 1]? with
    | none => rw [hm] at hr'; simp at hr'
    | some m' =>
      rw [hm] at hr'
      simp only [Option.map_some', Option.some.injEq] at hr'
      obtain ⟨-, -, hy', -⟩ := drawMatchRow_rect m' (i + 1)
      rw [← hr', hy', hy, hh]
      push_cast
      constructor
      · ring
      · linarith

/-- C17, at a concrete input: two matches, sorted by the insertion sort; the
row with index 1 spans `y` from 207 to 279 in a canvas 319 high. -/
theorem row_rectangles_witness :
    ∃ r : RowLayout,
      (rowLayouts (drawGraphic insertionSort sampleDateParse decimalNumber
        (some [scenarioA, sampleMatch (some "12:30") none])))[1]? = some r ∧
      r.rowX = 24 ∧ r.rowX + r.rowWidth = 1176 ∧
      r.rowY = 115 + 92 * ((1 : Nat) : ℚ) ∧ r.rowY + r.rowHeight = 187 + 92 * ((1 : Nat) : ℚ) :=
  have h := (row_rectangles insertionSort insertionSort_contract sampleDateParse decimalNumber
    [scenarioA, sampleMatch (some "12:30") none] (by decide) 1 (by decide)).2.2.2
  h.elim (fun r hr => ⟨r, hr.1, hr.2.1, hr.2.2.1, hr.2.2.2.1, hr.2.2.2.2.1⟩)

end RowGeometry

/-! ## Logo scaling (C13) -/

section LogoScaling

end LogoScaling

/-! ## Reconnecting (C18) -/

namespace RealtimeSync

/-- The invariant of reconnecting. -/
theorem attemptReconnect_inv (s : RealtimeSync)
    (hmax : s.maxReconnectAttempts = 5) (hle : s.reconnectAttempts ≤ 5)
    (hdelay : s.reconnectDelay = min (1000 * 2 ^ s.reconnectAttempts) 30000) :
    (attemptReconnect s).maxReconnectAttempts = 5 ∧
    (attemptReconnect s).reconnectAttempts ≤ 5 ∧
    (attemptReconnect s).reconnectDelay =
      min (1000 * 2 ^ (attemptReconnect s).reconnectAttempts) 30000 := by
  unfold attemptReconnect
  by_cases hge : s.reconnectAttempts ≥ s.maxReconnectAttempts
  · rw [if_pos hge]
    exact ⟨hmax, hle, hdelay⟩
  · rw [if_neg hge]
    have hlt : s.reconnectAttempts < 5 := by omega
    refine ⟨hmax, by simp only; omega, ?_⟩
    simp only
    rw [hdelay]
    have hcases : s.reconnectAttempts = 0 ∨ s.reconnectAttempts = 1 ∨ s.reconnectAttempts = 2 ∨
        s.reconnectAttempts = 3 ∨ s.reconnectAttempts = 4 := by omega
    rcases hcases with h | h | h | h | h <;> rw [h] <;> decide

theorem step_inv (s : RealtimeSync) (e : Event)
    (hmax : s.maxReconnectAttempts = 5) (hle : s.reconnectAttempts ≤ 5)
    (hdelay : s.reconnectDelay = min (1000 * 2 ^ s.reconnectAttempts) 30000) :
    (step s e).maxReconnectAttempts = 5 ∧
    (step s e).reconnectAttempts ≤ 5 ∧
    (step s e).reconnectDelay = min (1000 * 2 ^ (step s e).reconnectAttempts) 30000 := by
  cases e with
  | connect throws =>
    cases throws
    · exact ⟨hmax, hle, hdelay⟩
    · exact attemptReconnect_inv s hmax hle hdelay
  | onopen => exact ⟨hmax, by simp [step, onopen], by simp [step, onopen]⟩
  | onerror => exact attemptReconnect_inv { s with isConnected := false } hmax hle hdelay
  | attemptReconnect => exact attemptReconnect_inv s hmax hle hdelay
  | disconnect => exact ⟨hmax, hle, hdelay⟩

theorem reachable_inv (s : RealtimeSync) (h : Reachable s) :
    s.maxReconnectAttempts = 5 ∧ s.reconnectAttempts ≤ 5 ∧
    s.reconnectDelay = min (1000 * 2 ^ s.reconnectAttempts) 30000 := by
  induction h with
  | create throws => cases throws <;> decide
  | step e _ ih => exact step_inv _ e ih.1 ih.2.1 ih.2.2

theorem run_append (s : RealtimeSync) (l : List Event) (e : Event) :
    run s (l ++ [e]) = step (run s l) e := by
  simp [run]

theorem reachable_run (s : RealtimeSync) (l : List Event) (h : Reachable s) :
    Reachable (run s l) := by
  induction l generalizing s with
  | nil => exact h
  | cons e l ih => exact ih (step s e) (Reachable.step e h)

/-- A connection error before the fifth attempt. -/
theorem onerror_mk (a d : Nat) (c : Bool) (ts : List Nat) (h : a < 5) :
    onerror { reconnectAttempts := a, maxReconnectAttempts := 5, reconnectDelay := d,
              isConnected := c, timers := ts } =
      { reconnectAttempts := a + 1, maxReconnectAttempts := 5,
        reconnectDelay := min (d * 2) 30000, isConnected := false, timers := ts ++ [d] } := by
  unfold onerror attemptReconnect
  simp only
  rw [if_neg (by omega)]

/-- The state after a successful open and five connection errors. -/
theorem run_onopen_errors (s : RealtimeSync) (hmax : s.maxReconnectAttempts = 5) :
    run (onopen s) [Event.onerror, Event.onerror, Event.onerror, Event.onerror,
        Event.onerror] =
      { reconnectAttempts := 5, maxReconnectAttempts := 5, reconnectDelay := 30000,
        isConnected := false, timers := s.timers ++ [1000, 2000, 4000, 8000, 16000] } := by
  obtain ⟨a, m, d, c, ts⟩ := s
  simp only at hmax
  subst hmax
  simp only [run, List.foldl, step, onopen]
  rw [onerror_mk 0 1000 true ts (by omega)]
  rw [show min (1000 * 2) 30000 = 2000 by decide]
  rw [onerror_mk (0 + 1) 2000 false _ (by omega)]
  rw [show min (2000 * 2) 30000 = 4000 by decide]
  rw [onerror_mk (0 + 1 + 1) 4000 false _ (by omega)]
  rw [show min (4000 * 2) 30000 = 8000 by decide]
  rw [onerror_mk (0 + 1 + 1 + 1) 8000 false _ (by omega)]
  rw [show min (8000 * 2) 30000 = 16000 by decide]
  rw [onerror_mk (0 + 1 + 1 + 1 + 1) 16000 false _ (by omega)]
  rw [show min (16000 * 2) 30000 = 30000 by decide]
  simp only [List.append_assoc, List.singleton_append, List.cons_append, List.nil_append]

/-- A connection error after the fifth attempt. -/
theorem onerror_max (d : Nat) (c : Bool) (ts : List Nat) :
    onerror { reconnectAttempts := 5, maxReconnectAttempts := 5, reconnectDelay := d,
              isConnected := c, timers := ts } =
      { reconnectAttempts := 5, maxReconnectAttempts := 5, reconnectDelay := d,
        isConnected := false, timers := ts } := by
  unfold onerror attemptReconnect
  simp only
  rw [if_pos (by omega)]
/-- C18.  In every state of a `RealtimeSync` instance that is reachable from
the constructor through `connect`, a successful open, a connection error,
`attemptReconnect` and `disconnect`: `0 ≤ reconnectAttempts ≤
maxReconnectAttempts = 5` and `reconnectDelay = min(1000 * 2^reconnectAttempts,
30000)`.  After a successful open, five connection errors in a row schedule
retries after 1000, 2000, 4000, 8000 and 16000 ms and a sixth schedules
nothing; and once five attempts have been made `attemptReconnect` changes no
field and schedules nothing. -/
theorem reconnect_backoff (s : RealtimeSync) (h : Reachable s) :
    (s.maxReconnectAttempts = 5 ∧ 0 ≤ s.reconnectAttempts ∧
      s.reconnectAttempts ≤ s.maxReconnectAttempts ∧
      s.reconnectDelay = min (1000 * 2 ^ s.reconnectAttempts) 30000) ∧
    (run (onopen s) [Event.onerror, Event.onerror, Event.onerror, Event.onerror,
        Event.onerror]).timers = s.timers ++ [1000, 2000, 4000, 8000, 16000] ∧
    run (onopen s) [Event.onerror, Event.onerror, Event.onerror, Event.onerror,
        Event.onerror, Event.onerror] =
      run (onopen s) [Event.onerror, Event.onerror, Event.onerror, Event.onerror,
        Event.onerror] ∧
    (s.reconnectAttempts = 5 → attemptReconnect s = s) := by
  obtain ⟨hmax, hle, hdelay⟩ := reachable_inv s h
  refine ⟨⟨hmax, Nat.zero_le _, by omega, hdelay⟩, ?_, ?_, ?_⟩
  · rw [run_onopen_errors s hmax]
  · have h6 : [Event.onerror, Event.onerror, Event.onerror, Event.onerror,
        Event.onerror, Event.onerror] =
        [Event.onerror, Event.onerror, Event.onerror, Event.onerror, Event.onerror] ++
          [Event.onerror] := rfl
    rw [h6, run_append, run_onopen_errors s hmax]
    exact onerror_max _ _ _
  · intro h5
    unfold attemptReconnect
    rw [if_pos (by omega)]

/-- C18, at a concrete input: the constructor, two connection errors, a
successful open and one more error leave one attempt made and a delay of
2000 ms, the timeouts having been set after 1000, 2000 and 1000 ms. -/
theorem reconnect_backoff_witness :
    (run (create false) [Event.onerror, Event.onerror, Event.onopen,
        Event.onerror]).reconnectAttempts = 1 ∧
    (run (create false) [Event.onerror, Event.onerror, Event.onopen,
        Event.onerror]).reconnectDelay = 2000 ∧
    (run (create false) [Event.onerror, Event.onerror, Event.onopen,
        Event.onerror]).timers = [1000, 2000, 1000] ∧
    (run (create false) [Event.onerror, Event.onerror, Event.onopen,
        Event.onerror]).reconnectDelay =
      min (1000 * 2 ^ (run (create false) [Event.onerror, Event.onerror, Event.onopen,
        Event.onerror]).reconnectAttempts) 30000 :=
  ⟨by decide, by decide, by decide,
    (reconnect_backoff (run (create false) [Event.onerror, Event.onerror, Event.onopen,
        Event.onerror])
      (reachable_run _ _ (Reachable.create false))).1.2.2.2⟩

end RealtimeSync

/-! ## Loading images (C11) -/

section LoadImages

open List

variable {β : Type}

theorem Dict.get_set_self (d : Dict β) (key : JSString) (value : β) :
    (d.set key value).get key = some value := by
  induction d with
  | nil => simp [Dict.set, Dict.get]
  | cons p d ih =>
    obtain ⟨k, v⟩ := p
    by_cases h : key = k
    · simp [Dict.set, Dict.get, h]
    · simp [Dict.set, Dict.get, h, ih]

theorem Dict.get_set_ne (d : Dict β) {key key' : JSString} (value : β) (hne : key' ≠ key) :
    (d.set key value).get key' = d.get key' := by
  induction d with
  | nil => simp [Dict.set, Dict.get, hne]
  | cons p d ih =>
    obtain ⟨k, v⟩ := p
    by_cases h : key = k
    · subst h
      simp [Dict.set, Dict.get, hne]
    · by_cases h' : key' = k
      · simp [Dict.set, Dict.get, h, h']
      · simp [Dict.set, Dict.get, h, h', ih]

theorem Dict.keys_cons (k : JSString) (v : β) (d : Dict β) :
    Dict.keys ((k, v) :: d) = k :: Dict.keys d := rfl

theorem Dict.get_cons (k : JSString) (v : β) (d : Dict β) (key : JSString) :
    Dict.get ((k, v) :: d) key = if key = k then some v else Dict.get d key := rfl

theorem Dict.mem_keys_iff (d : Dict β) (key : JSString) :
    key ∈ d.keys ↔ (d.get key).isSome = true := by
  induction d with
  | nil => simp [Dict.keys, Dict.get]
  | cons p d ih =>
    obtain ⟨k, v⟩ := p
    rw [Dict.get_cons]
    show key ∈ k :: Dict.keys d ↔ _
    by_cases h : key = k
    · rw [if_pos h, h]
      exact ⟨fun _ => rfl, fun _ => mem_cons_self _ _⟩
    · rw [if_neg h, ← ih, mem_cons]
      exact ⟨fun hc => hc.resolve_left h, Or.inr⟩

theorem Dict.keys_set (d : Dict β) (key : JSString) (value : β) :
    (d.set key value).keys = if key ∈ d.keys then d.keys else d.keys ++ [key] := by
  induction d with
  | nil => rfl
  | cons p d ih =>
    obtain ⟨k, v⟩ := p
    by_cases h : key = k
    · have hset : Dict.set ((k, v) :: d) key value = (k, value) :: d := by
        simp only [Dict.set, if_pos h]
      rw [hset, Dict.keys_cons, Dict.keys_cons, if_pos (by rw [h]; exact mem_cons_self _ _)]
    · have hset : Dict.set ((k, v) :: d) key value = (k, v) :: Dict.set d key value := by
        simp only [Dict.set, if_neg h]
      rw [hset, Dict.keys_cons, Dict.keys_cons, ih]
      by_cases hm : key ∈ Dict.keys d
      · rw [if_pos hm, if_pos (mem_cons_of_mem _ hm)]
      · have hm' : key ∉ k :: Dict.keys d := by
          intro hc
          rcases mem_cons.mp hc with hc | hc
          · exact h hc
          · exact hm hc
        rw [if_neg hm, if_neg hm', cons_append]

theorem Dict.nodup_keys_set (d : Dict β) (key : JSString) (value : β) (h : d.keys.Nodup) :
    (d.set key value).keys.Nodup := by
  rw [Dict.keys_set]
  split
  · exact h
  · rename_i hmem
    exact nodup_append.mpr ⟨h, nodup_singleton key, by
      intro a ha hb
      rw [mem_singleton] at hb
      exact hmem (hb ▸ ha)⟩

/-- The elements collected into a `Set`, in the order of insertion. -/
theorem mem_foldl_insert (l acc : List JSString) (u : JSString) :
    u ∈ l.foldl (fun acc u => if u ∈ acc then acc else acc ++ [u]) acc ↔ u ∈ acc ∨ u ∈ l := by
  induction l generalizing acc with
  | nil => simp
  | cons x l ih =>
    rw [foldl_cons, ih]
    by_cases hx : x ∈ acc
    · rw [if_pos hx, mem_cons]
      constructor
      · rintro (h | h)
        · exact Or.inl h
        · exact Or.inr (Or.inr h)
      · rintro (h | rfl | h)
        · exact Or.inl h
        · exact Or.inl hx
        · exact Or.inr h
    · rw [if_neg hx, mem_append, mem_singleton, mem_cons]
      tauto

theorem nodup_foldl_insert (l acc : List JSString) (h : acc.Nodup) :
    (l.foldl (fun acc u => if u ∈ acc then acc else acc ++ [u]) acc).Nodup := by
  induction l generalizing acc with
  | nil => exact h
  | cons x l ih =>
    rw [foldl_cons]
    apply ih
    by_cases hx : x ∈ acc
    · rw [if_pos hx]
      exact h
    · rw [if_neg hx]
      exact nodup_append.mpr ⟨h, nodup_singleton x, by
        intro a ha hb
        rw [mem_singleton] at hb
        exact hx (hb ▸ ha)⟩

theorem mem_uniqueUrls (urls : List (Option JSString)) (u : JSString) :
    u ∈ uniqueUrls urls ↔ u ≠ [] ∧ some u ∈ urls := by
  unfold uniqueUrls
  rw [mem_foldl_insert]
  simp only [not_mem_nil, false_or, mem_map, mem_filter]
  constructor
  · rintro ⟨o, ⟨ho, htr⟩, rfl⟩
    cases o with
    | none => simp [truthy] at htr
    | some t =>
      cases t with
      | nil => simp [truthy] at htr
      | cons c cs => exact ⟨by simp [strOf], by simpa [strOf] using ho⟩
  · rintro ⟨hne, hmem⟩
    refine ⟨some u, ⟨hmem, ?_⟩, rfl⟩
    cases u with
    | nil => exact absurd rfl hne
    | cons c cs => rfl

theorem nodup_uniqueUrls (urls : List (Option JSString)) : (uniqueUrls urls).Nodup :=
  nodup_foldl_insert _ [] nodup_nil

/-- The image that a successful load of `url` stores. -/
theorem loadImages_fold_get (encodeURIComponent : JSString → JSString)
    (loadOutcome : JSString → JSString → Option (Nat × Nat))
    (l : List JSString) (init : Dict Image) (u : JSString) :
    (l.foldl (fun (imageCache : Dict Image) url =>
        let proxyUrl := strOf (getProxyUrl encodeURIComponent (some url))
        match loadOutcome url proxyUrl with
        | some (w, h) => imageCache.set url { src := proxyUrl, width := w, height := h }
        | none => imageCache) init).get u =
      match loadOutcome u (strOf (getProxyUrl encodeURIComponent (some u))) with
      | some (w, h) =>
        if u ∈ l then
          some { src := strOf (getProxyUrl encodeURIComponent (some u)), width := w, height := h }
        else init.get u
      | none => init.get u := by
  induction l generalizing init with
  | nil => cases loadOutcome u (strOf (getProxyUrl encodeURIComponent (some u))) <;> simp
  | cons x l ih =>
    rw [foldl_cons, ih]
    cases hu : loadOutcome u (strOf (getProxyUrl encodeURIComponent (some u))) with
    | none =>
      simp only
      cases hx : loadOutcome x (strOf (getProxyUrl encodeURIComponent (some x))) with
      | none => rfl
      | some p =>
        simp only
        have hne : u ≠ x := by
          rintro rfl
          rw [hu] at hx
          exact Option.noConfusion hx
        exact Dict.get_set_ne init _ hne
    | some p =>
      obtain ⟨w, h⟩ := p
      simp only
      by_cases hm : u ∈ l
      · rw [if_pos hm, if_pos (mem_cons_of_mem _ hm)]
      · rw [if_neg hm]
        by_cases hux : u = x
        · subst hux
          rw [if_pos (mem_cons_self _ _), hu]
          exact Dict.get_set_self init _ _
        · have hm' : u ∉ x :: l := by
            intro hc
            rcases mem_cons.mp hc with hc | hc
            · exact hux hc
            · exact hm hc
          rw [if_neg hm']
          cases hx : loadOutcome x (strOf (getProxyUrl encodeURIComponent (some x))) with
          | none => rfl
          | some q => exact Dict.get_set_ne init _ hux

theorem loadImages_fold_nodup (encodeURIComponent : JSString → JSString)
    (loadOutcome : JSString → JSString → Option (Nat × Nat))
    (l : List JSString) (init : Dict Image) (hinit : init.keys.Nodup) :
    (l.foldl (fun (imageCache : Dict Image) url =>
        let proxyUrl := strOf (getProxyUrl encodeURIComponent (some url))
        match loadOutcome url proxyUrl with
        | some (w, h) => imageCache.set url { src := proxyUrl, width := w, height := h }
        | none => imageCache) init).keys.Nodup := by
  induction l generalizing init with
  | nil => exact hinit
  | cons x l ih =>
    rw [foldl_cons]
    apply ih
    simp only
    cases hx : loadOutcome x (strOf (getProxyUrl encodeURIComponent (some x))) with
    | none => exact hinit
    | some q => exact Dict.nodup_keys_set init _ _ hinit

theorem loadImages_eq_fold (encodeURIComponent : JSString → JSString)
    (loadOutcome : JSString → JSString → Option (Nat × Nat))
    (us : List (Option JSString)) :
    ImageLoader.loadImages encodeURIComponent loadOutcome (some us) =
      (uniqueUrls us).foldl (fun (imageCache : Dict Image) url =>
        let proxyUrl := strOf (getProxyUrl encodeURIComponent (some url))
        match loadOutcome url proxyUrl with
        | some (w, h) => imageCache.set url { src := proxyUrl, width := w, height := h }
        | none => imageCache) [] := by
  unfold ImageLoader.loadImages
  cases us with
  | nil => rfl
  | cons o os => simp

/-- C11.  For every list of URLs (entries may be empty or absent) and every
outcome, success or failure, of the individual image loads,
`ImageLoader.loadImages` returns a mapping in which no key occurs twice and
whose keys are exactly the non-empty input URLs whose load succeeded; the
image stored under a URL `u` was fetched through `getProxyUrl(u)` and is
stored under `u` itself; an empty or absent list gives the empty mapping. -/
theorem loadImages_keys (encodeURIComponent : JSString → JSString)
    (loadOutcome : JSString → JSString → Option (Nat × Nat))
    (urls : Option (List (Option JSString))) :
    (ImageLoader.loadImages encodeURIComponent loadOutcome urls).keys.Nodup ∧
    (∀ u : JSString,
      u ∈ (ImageLoader.loadImages encodeURIComponent loadOutcome urls).keys ↔
        u ≠ [] ∧ some u ∈ urls.getD [] ∧
        (loadOutcome u (strOf (getProxyUrl encodeURIComponent (some u)))).isSome = true) ∧
    (∀ (u : JSString) (img : Image),
      (ImageLoader.loadImages encodeURIComponent loadOutcome urls).get u = some img →
        img.src = strOf (getProxyUrl encodeURIComponent (some u)) ∧
        loadOutcome u img.src = some (img.width, img.height)) ∧
    ImageLoader.loadImages encodeURIComponent loadOutcome none = [] ∧
    ImageLoader.loadImages encodeURIComponent loadOutcome (some []) = [] := by
  have hget : ∀ (us : List (Option JSString)) (u : JSString),
      (ImageLoader.loadImages encodeURIComponent loadOutcome (some us)).get u =
        match loadOutcome u (strOf (getProxyUrl encodeURIComponent (some u))) with
        | some (w, h) =>
          if u ∈ uniqueUrls us then
            some { src := strOf (getProxyUrl encodeURIComponent (some u)),
                   width := w, height := h }
          else none
        | none => none := by
    intro us u
    rw [loadImages_eq_fold, loadImages_fold_get]
    rfl
  refine ⟨?_, ?_, ?_, rfl, rfl⟩
  · cases urls with
    | none => exact nodup_nil
    | some us =>
      rw [loadImages_eq_fold]
      exact loadImages_fold_nodup encodeURIComponent loadOutcome _ [] nodup_nil
  · intro u
    cases urls with
    | none => simp [ImageLoader.loadImages, Dict.keys]
    | some us =>
      rw [Dict.mem_keys_iff, hget us u, Option.getD_some, ← and_assoc, ← mem_uniqueUrls]
      cases hu : loadOutcome u (strOf (getProxyUrl encodeURIComponent (some u))) with
      | none => simp
      | some p =>
        by_cases hm : u ∈ uniqueUrls us
        · simp [hm]
        · simp [hm]
  · intro u img himg
    cases urls with
    | none => simp [ImageLoader.loadImages, Dict.get] at himg
    | some us =>
      rw [hget us u] at himg
      cases hu : loadOutcome u (strOf (getProxyUrl encodeURIComponent (some u))) with
      | none => rw [hu] at himg; simp at himg
      | some p =>
        obtain ⟨w, h⟩ := p
        rw [hu] at himg
        by_cases hm : u ∈ uniqueUrls us
        · simp only [if_pos hm, Option.some.injEq] at himg
          subst himg
          exact ⟨rfl, hu⟩
        · simp [hm] at himg

/-- C11, at a concrete input: a CDN logo that loads (through the proxy), given
twice, an empty entry, an absent entry and a logo of another host that fails
to load.  The mapping has the one key of the CDN logo, the original URL, and
nothing under the proxy URL. -/
theorem loadImages_keys_witness :
    (ImageLoader.loadImages percentEncode
        (fun _ src => if includes src "corsproxy.io".toList then some (64, 64) else none)
        (some [some "https://cdn.pandascore.co/a.png".toList, some [], none,
          some "https://cdn.pandascore.co/a.png".toList,
          some "https://example.com/b.png".toList])).keys =
      ["https://cdn.pandascore.co/a.png".toList] ∧
    (ImageLoader.loadImages percentEncode
        (fun _ src => if includes src "corsproxy.io".toList then some (64, 64) else none)
        (some [some "https://cdn.pandascore.co/a.png".toList, some [], none,
          some "https://cdn.pandascore.co/a.png".toList,
          some "https://example.com/b.png".toList])).get
      "https://corsproxy.io/?https%3A%2F%2Fcdn.pandascore.co%2Fa.png".toList = none ∧
    (ImageLoader.loadImages percentEncode
        (fun _ src => if includes src "corsproxy.io".toList then some (64, 64) else none)
        (some [some "https://cdn.pandascore.co/a.png".toList, some [], none,
          some "https://cdn.pandascore.co/a.png".toList,
          some "https://example.com/b.png".toList])).keys.Nodup :=
  ⟨by decide, by decide,
    (loadImages_keys percentEncode
      (fun _ src => if includes src "corsproxy.io".toList then some (64, 64) else none)
      (some [some "https://cdn.pandascore.co/a.png".toList, some [], none,
        some "https://cdn.pandascore.co/a.png".toList,
        some "https://example.com/b.png".toList])).1⟩

/-- A URL whose load failed has no entry in the mapping that
`ImageLoader.loadImages` returns. -/
theorem loadImages_get_of_failed (encodeURIComponent : JSString → JSString)
    (loadOutcome : JSString → JSString → Option (Nat × Nat))
    (urls : Option (List (Option JSString))) (u : JSString)
    (hfail : loadOutcome u (strOf (getProxyUrl encodeURIComponent (some u))) = none) :
    (ImageLoader.loadImages encodeURIComponent loadOutcome urls).get u = none := by
  cases urls with
  | none => rfl
  | some us =>
    rw [loadImages_eq_fold, loadImages_fold_get, hfail]
    rfl

end LoadImages

/-! ## Drawing a logo or a placeholder (C12) -/

section TeamLogo

theorem truthy_eq_some {v : Option JSString} (h : truthy v = true) : v = some (strOf v) := by
  cases v with
  | none => simp [truthy] at h
  | some t => rfl

/-- A cached image of positive size is drawn. -/
theorem drawTeamLogo_of_cached (toUpperCase : JSString → JSString) (s : CanvasBuildSystem)
    (logoUrl : Option JSString) (x y size : ℚ) (teamName : Option JSString) (logo : Image)
    (hurl : truthy logoUrl = true) (hget : s.imageCache.get (strOf logoUrl) = some logo)
    (hw : 0 < logo.width) (hh : 0 < logo.height) :
    s.drawTeamLogo toUpperCase logoUrl x y size teamName =
      (Drawn.logo logo (logoDrawRect x y size logo.width logo.height), s) := by
  simp [CanvasBuildSystem.drawTeamLogo, hurl, hget, hw, hh]

/-- Without a cached image of positive size the placeholder path is taken. -/
theorem drawTeamLogo_of_not_cached (toUpperCase : JSString → JSString) (s : CanvasBuildSystem)
    (logoUrl : Option JSString) (x y size : ℚ) (teamName : Option JSString)
    (h : ∀ logo : Image, truthy logoUrl = true → s.imageCache.get (strOf logoUrl) = some logo →
      ¬ (0 < logo.width ∧ 0 < logo.height)) :
    s.drawTeamLogo toUpperCase logoUrl x y size teamName =
      drawPlaceholder toUpperCase s x y size teamName := by
  unfold CanvasBuildSystem.drawTeamLogo
  by_cases hurl : truthy logoUrl = true
  · rw [if_pos hurl]
    cases hget : s.imageCache.get (strOf logoUrl) with
    | none => rfl
    | some logo =>
      simp only
      rw [if_neg (h logo hurl hget)]
  · rw [if_neg hurl]

/-- For a team with a name, when the cache is in order under that name, the
placeholder with the initials of the name is drawn and is in the cache
afterwards. -/
theorem drawPlaceholder_of_name (toUpperCase : JSString → JSString) (s : CanvasBuildSystem)
    (x y size : ℚ) (name : JSString) (hname : name ≠ [])
    (hcache : ∀ p : Placeholder, s.placeholderCache.get name = some p →
      p = createPlaceholder (getTeamInitials toUpperCase (some name))) :
    (drawPlaceholder toUpperCase s x y size (some name)).1 =
      Drawn.placeholder (createPlaceholder (getTeamInitials toUpperCase (some name))) x y size ∧
    (drawPlaceholder toUpperCase s x y size (some name)).2.placeholderCache.get name =
      some (createPlaceholder (getTeamInitials toUpperCase (some name))) ∧
    (drawPlaceholder toUpperCase s x y size (some name)).2.imageCache = s.imageCache := by
  have htr : truthy (some name) = true := by
    cases name with
    | nil => exact absurd rfl hname
    | cons c cs => rfl
  unfold drawPlaceholder
  rw [if_pos htr]
  cases hget : s.placeholderCache.get (strOf (some name)) with
  | none =>
    refine ⟨rfl, ?_, rfl⟩
    exact Dict.get_set_self _ _ _
  | some p =>
    have hp := hcache p hget
    subst hp
    exact ⟨rfl, hget, rfl⟩

/-- For a team without a name, when the cache holds nothing or the `"TM"`
placeholder under `'default'`, the `"TM"` placeholder is drawn. -/
theorem drawPlaceholder_of_no_name (toUpperCase : JSString → JSString) (s : CanvasBuildSystem)
    (x y size : ℚ) (teamName : Option JSString) (hname : truthy teamName = false)
    (hcache : ∀ p : Placeholder, s.placeholderCache.get "default".toList = some p →
      p = createPlaceholder "TM".toList) :
    (drawPlaceholder toUpperCase s x y size teamName).1 =
      Drawn.placeholder (createPlaceholder "TM".toList) x y size := by
  unfold drawPlaceholder
  rw [if_neg (by rw [hname]; exact Bool.false_ne_true)]
  cases hget : s.placeholderCache.get "default".toList with
  | none => rfl
  | some p =>
    have hp := hcache p hget
    subst hp
    rfl

theorem placeholdersOK_empty (toUpperCase : JSString → JSString) :
    PlaceholdersOK toUpperCase CanvasBuildSystem.empty.placeholderCache := by
  intro name p _ h
  simp [CanvasBuildSystem.empty, Dict.get] at h

theorem placeholdersOK_set_name (toUpperCase : JSString → JSString) (pc : Dict Placeholder)
    (name : JSString) (h : PlaceholdersOK toUpperCase pc) :
    PlaceholdersOK toUpperCase
      (pc.set name (createPlaceholder (getTeamInitials toUpperCase (some name)))) := by
  intro k p hk hget
  by_cases hkn : k = name
  · subst hkn
    rw [Dict.get_set_self] at hget
    exact (Option.some.inj hget).symm
  · rw [Dict.get_set_ne pc _ hkn] at hget
    exact h k p hk hget

theorem placeholdersOK_set_default (toUpperCase : JSString → JSString) (pc : Dict Placeholder)
    (p : Placeholder) (h : PlaceholdersOK toUpperCase pc) :
    PlaceholdersOK toUpperCase (pc.set "default".toList p) := by
  intro k q hk hget
  rw [Dict.get_set_ne pc _ hk] at hget
  exact h k q hk hget

theorem placeholdersOK_addPlaceholder (toUpperCase : JSString → JSString)
    (pc : Dict Placeholder) (team : Option Team) (h : PlaceholdersOK toUpperCase pc) :
    PlaceholdersOK toUpperCase (addPlaceholder toUpperCase pc team) := by
  unfold addPlaceholder
  cases team with
  | none => exact h
  | some t =>
    simp only
    by_cases htr : truthy t.name = true
    · rw [if_pos htr]
      have := placeholdersOK_set_name toUpperCase pc (strOf t.name) h
      rwa [← truthy_eq_some htr] at this
    · rw [if_neg htr]
      exact h

theorem placeholdersOK_foldl (toUpperCase : JSString → JSString) (ms : List Match)
    (pc : Dict Placeholder) (h : PlaceholdersOK toUpperCase pc) :
    PlaceholdersOK toUpperCase (ms.foldl (fun pc m =>
      addPlaceholder toUpperCase (addPlaceholder toUpperCase pc m.team1) m.team2) pc) := by
  induction ms generalizing pc with
  | nil => exact h
  | cons m ms ih =>
    rw [List.foldl_cons]
    exact ih _ (placeholdersOK_addPlaceholder _ _ _ (placeholdersOK_addPlaceholder _ _ _ h))

/-- `loadImages(matches)` keeps the placeholder cache in order. -/
theorem placeholdersOK_loadImages (toUpperCase encodeURIComponent : JSString → JSString)
    (loadOutcome : JSString → JSString → Option (Nat × Nat))
    (s : CanvasBuildSystem) (matchList : Option (List Match))
    (h : PlaceholdersOK toUpperCase s.placeholderCache) :
    PlaceholdersOK toUpperCase
      (s.loadImages toUpperCase encodeURIComponent loadOutcome matchList).placeholderCache := by
  unfold CanvasBuildSystem.loadImages
  cases matchList with
  | none => exact h
  | some ms =>
    simp only
    split
    · exact h
    · exact placeholdersOK_foldl toUpperCase ms _ h

/-- `drawTeamLogo` keeps the placeholder cache in order. -/
theorem placeholdersOK_drawTeamLogo (toUpperCase : JSString → JSString)
    (s : CanvasBuildSystem) (logoUrl : Option JSString) (x y size : ℚ)
    (teamName : Option JSString) (h : PlaceholdersOK toUpperCase s.placeholderCache) :
    PlaceholdersOK toUpperCase
      (s.drawTeamLogo toUpperCase logoUrl x y size teamName).2.placeholderCache := by
  have hph : PlaceholdersOK toUpperCase
      (drawPlaceholder toUpperCase s x y size teamName).2.placeholderCache := by
    unfold drawPlaceholder
    by_cases htr : truthy teamName = true
    · rw [if_pos htr]
      cases hget : s.placeholderCache.get (strOf teamName) with
      | some p => exact h
      | none =>
        simp only
        have := placeholdersOK_set_name toUpperCase s.placeholderCache (strOf teamName) h
        rwa [← truthy_eq_some htr] at this
    · rw [if_neg htr]
      cases hget : s.placeholderCache.get "default".toList with
      | some p => exact h
      | none => exact placeholdersOK_set_default toUpperCase _ _ h
  unfold CanvasBuildSystem.drawTeamLogo
  split
  · split
    · exact h
    · exact hph
  · exact hph

/-- For a team whose name is not empty and not `"default"`, in a state whose
placeholder cache is in order, and without a cached image of positive size
for its logo URL, `drawTeamLogo` draws the placeholder with the initials of
the name. -/
theorem drawTeamLogo_of_name (toUpperCase : JSString → JSString) (s : CanvasBuildSystem)
    (logoUrl : Option JSString) (x y size : ℚ) (name : JSString)
    (hok : PlaceholdersOK toUpperCase s.placeholderCache)
    (hname : name ≠ []) (hdef : name ≠ "default".toList)
    (h : ∀ logo : Image, truthy logoUrl = true → s.imageCache.get (strOf logoUrl) = some logo →
      ¬ (0 < logo.width ∧ 0 < logo.height)) :
    (s.drawTeamLogo toUpperCase logoUrl x y size (some name)).1 =
      Drawn.placeholder (createPlaceholder (getTeamInitials toUpperCase (some name)))
        x y size := by
  rw [drawTeamLogo_of_not_cached toUpperCase s logoUrl x y size (some name) h]
  exact (drawPlaceholder_of_name toUpperCase s x y size name hname
    (fun p hp => hok name p hdef hp)).1

/-- C12, the code at a team called "default".  In a fresh build system the
logo of a team without a name is drawn first: the `"TM"` placeholder, kept
under the key `'default'`.  The logo of a team called "default" is drawn
next: the cache has an entry under its name, so the `"TM"` placeholder is
drawn, not one with the initials `"DE"` of the name.  And after
`loadImages` of this match, which keeps the `"DE"` placeholder under the name
"default", the team without a name gets `"DE"`, not `"TM"`. -/
theorem drawTeamLogo_default_name :
    (CanvasBuildSystem.empty.drawTeamLogo asciiUpper none 499 (253 / 2) 49
        none).1.placeholderText? = some "TM".toList ∧
    ((CanvasBuildSystem.empty.drawTeamLogo asciiUpper none 499 (253 / 2) 49
        none).2.drawTeamLogo asciiUpper none 708 (253 / 2) 49
        (some "default".toList)).1.placeholderText? = some "TM".toList ∧
    getTeamInitials asciiUpper (some "default".toList) = "DE".toList ∧
    ((CanvasBuildSystem.empty.loadImages asciiUpper percentEncode (fun _ _ => none)
        (some [defaultNameMatch])).drawTeamLogo asciiUpper none 499 (253 / 2) 49
        none).1.placeholderText? = some "DE".toList := by
  refine ⟨by decide, by decide, by decide, by decide⟩

end TeamLogo

end CanvasBuild
